import Mathlib

/-!
Verification development for the activity-tracker report generator
(`tracker/reports.py`).  The Python module is shallowly embedded below:
pure helpers become Lean functions, the narrative backend (which may fail)
is modelled with `Except Unit`, Python `dict`s (insertion ordered) become
association lists, Python floats become exact rationals, and Python
exceptions around `datetime.fromisoformat` become `Option`.
-/

set_option maxRecDepth 100000

namespace Tracker

/-- A wall-clock datetime, the result of Python's timestamp normalisation
(`datetime.fromtimestamp` / `datetime.fromisoformat`).  Screenshots carry a
value of this type directly: the claims under study quantify over arbitrary
normalised datetimes, so the epoch-to-local conversion itself is not
re-implemented. -/
structure DateTime where
  year : Int
  month : Nat
  day : Nat
  hour : Nat
  minute : Nat
  second : Nat
deriving DecidableEq, Repr

/-- Days since 1970-01-01 of a civil date (Hinnant's `days_from_civil`,
the arithmetic behind `datetime` subtraction and weekday computation). -/
def daysFromCivil (y0 : Int) (m : Nat) (d : Nat) : Int :=
  let y : Int := if m ≤ 2 then y0 - 1 else y0
  let era : Int := y / 400
  let yoe : Int := y - era * 400
  let mp : Int := ((m : Int) + 9) % 12
  let doy : Int := (153 * mp + 2) / 5 + (d : Int) - 1
  let doe : Int := yoe * 365 + yoe / 4 - yoe / 100 + doy
  era * 146097 + doe - 719468

/-- Seconds since the epoch of a `DateTime`; datetime subtraction
(`(end - start).total_seconds()`) is the difference of these. -/
def toEpochSeconds (dt : DateTime) : Int :=
  daysFromCivil dt.year dt.month dt.day * 86400
    + (dt.hour : Int) * 3600 + (dt.minute : Int) * 60 + (dt.second : Int)

/-- `strftime('%A')`: the full weekday name (1970-01-01 was a Thursday). -/
def weekdayName (dt : DateTime) : String :=
  let i : Nat := ((daysFromCivil dt.year dt.month dt.day + 4).emod 7).toNat
  (["Sunday", "Monday", "Tuesday", "Wednesday", "Thursday", "Friday",
    "Saturday"].getD i ("Sunday"))

/-- Zero-pad a natural number to two digits (`%m`, `%d`). -/
def pad2 (n : Nat) : String :=
  if n < 10 then "0" ++ toString n else toString n

/-- Zero-pad to four digits (`%Y`). -/
def pad4 (n : Int) : String :=
  if n < 10 then "000" ++ toString n
  else if n < 100 then "00" ++ toString n
  else if n < 1000 then "0" ++ toString n
  else toString n

/-- `strftime('%Y-%m-%d')`. -/
def dateKey (dt : DateTime) : String :=
  pad4 dt.year ++ "-" ++ pad2 dt.month ++ "-" ++ pad2 dt.day

/-- Gregorian leap-year rule, used by `fromisoformat`'s date validation. -/
def isLeap (y : Int) : Bool :=
  y.emod 4 = 0 && (y.emod 100 ≠ 0 || y.emod 400 = 0)

/-- Number of days in a month, used by `fromisoformat`'s validation. -/
def daysInMonth (y : Int) (m : Nat) : Nat :=
  if m = 2 then (if isLeap y then 29 else 28)
  else if m = 4 ∨ m = 6 ∨ m = 9 ∨ m = 11 then 30
  else 31

/-- Parse a fixed-width all-digit decimal field, as `fromisoformat` does. -/
def parseDigits (s : String) (width : Nat) : Option Nat :=
  if s.length = width ∧ s.all Char.isDigit then
    some (s.foldl (fun n c => n * 10 + (c.toNat - 48)) 0)
  else none

/-- Model of `datetime.fromisoformat`: accepts `YYYY-MM-DD`, optionally
followed by a one-character separator and `HH[:MM[:SS]]`, validating all
ranges; `none` models the `ValueError` the Python function raises. -/
def fromisoformat (s : String) : Option DateTime := do
  if s.length < 10 then none else
  let dparts := (s.take 10).splitOn ("-")
  match dparts with
  | [ys, ms, ds] =>
    let y ← parseDigits ys 4
    let mo ← parseDigits ms 2
    let d ← parseDigits ds 2
    if 1 ≤ mo ∧ mo ≤ 12 ∧ 1 ≤ d ∧ d ≤ daysInMonth (y : Int) mo then
      if s.length = 10 then
        some ⟨(y : Int), mo, d, 0, 0, 0⟩
      else if s.length < 12 then none
      else
        let tparts := (s.drop 11).splitOn (":")
        let hms ← match tparts with
          | [hs] => do pure ((← parseDigits hs 2), 0, 0)
          | [hs, mins] => do pure ((← parseDigits hs 2), (← parseDigits mins 2), 0)
          | [hs, mins, ss] => do
              pure ((← parseDigits hs 2), (← parseDigits mins 2), (← parseDigits ss 2))
          | _ => none
        if hms.1 ≤ 23 ∧ hms.2.1 ≤ 59 ∧ hms.2.2 ≤ 59 then
          some ⟨(y : Int), mo, d, hms.1, hms.2.1, hms.2.2⟩
        else none
    else none
  | _ => none

/-- A `start_time`/`end_time` value as stored on a summary row: either an
already-parsed `datetime` object or a raw string. -/
inductive TimeVal where
  | dt (d : DateTime)
  | str (s : String)
deriving DecidableEq, Repr

/-- Python truthiness of a time value (`datetime` objects are always
truthy, the empty string is falsy). -/
def TimeVal.falsy : TimeVal → Bool
  | .dt _ => false
  | .str s => s = ""

/-- The parse performed inside `_summary_duration_seconds`'s `try` block:
a `datetime` passes through, a string goes to `fromisoformat`. -/
def TimeVal.toDatetime : TimeVal → Option DateTime
  | .dt d => some d
  | .str s => fromisoformat s

/-- The `screenshot_ids` field: either a native sequence of ids or a
serialized (JSON string) encoding of one. -/
inductive IdsVal where
  | native (xs : List Int)
  | encoded (s : String)
deriving DecidableEq, Repr

/-- A summary row (`project` is carried as the key of the by-project map). -/
structure Summary where
  summary : Option String
  start_time : Option TimeVal
  end_time : Option TimeVal
  screenshot_ids : IdsVal
deriving DecidableEq, Repr

/-- A screenshot row.  `app_name`/`window_title` of `none` models the
column being NULL; `timestamp` is the normalised datetime. -/
structure Screenshot where
  id : Int
  timestamp : DateTime
  app_name : Option String
  window_title : Option String
deriving DecidableEq, Repr

/-- A session row. -/
structure Session where
  duration_seconds : Option Int
deriving DecidableEq, Repr

/-- Python dict update `m[k] = m.get(k, 0) + v`.  Python dicts iterate in
insertion order; updating an existing key keeps its position, a new key is
appended at the end. -/
def bump [DecidableEq α] [Add β] : List (α × β) → α → β → List (α × β)
  | [], k, v => [(k, v)]
  | (k', v') :: rest, k, v =>
    if k' = k then (k', v' + v) :: rest else (k', v') :: bump rest k v

/-- Python dict lookup `m[k]` / `m.get(k)`. -/
def alistGet [DecidableEq α] : List (α × β) → α → Option β
  | [], _ => none
  | (k', v) :: rest, k => if k' = k then some v else alistGet rest k

/-- Stable insertion into a list already sorted ascending by `le`:
the inserted element goes after every element `le` it. -/
def insertOrd (le : α → α → Bool) (x : α) : List α → List α
  | [] => [x]
  | y :: ys => if le y x then y :: insertOrd le x ys else x :: y :: ys

/-- Python's `sorted`: stable, ascending by `le`. -/
def pysorted (le : α → α → Bool) (l : List α) : List α :=
  l.foldl (fun acc x => insertOrd le x acc) []

/-- `d.get(field, 'Unknown') or 'Unknown'`: a missing, NULL or empty
name collapses to `"Unknown"`. -/
def orUnknown : Option String → String
  | none => "Unknown"
  | some a => if a = "" then "Unknown" else a

/-- Python `int()` truncation (toward zero) of an exact rational. -/
def truncQ (q : ℚ) : Int := q.num.tdiv (q.den : Int)

/-- Round-half-to-even to an integer, the rounding Python's `round` uses. -/
def roundHalfEven (x : ℚ) : Int :=
  let f := ⌊x⌋
  let frac := x - (f : ℚ)
  if frac < 1/2 then f
  else if 1/2 < frac then f + 1
  else if f % 2 = 0 then f else f + 1

/-- Python `round(x, 1)` on an exact rational. -/
def roundTenth (x : ℚ) : ℚ := (roundHalfEven (x * 10) : ℚ) / 10

/-- Python string slice `s[:n]` (by characters). -/
def strTake (s : String) (n : Nat) : String := ⟨s.data.take n⟩

/-- One `top_apps` entry. -/
structure TopApp where
  name : String
  minutes : Int
  percentage : ℚ
deriving DecidableEq, Repr

/-- One `top_windows` entry. -/
structure TopWindow where
  title : String
  minutes : Int
deriving DecidableEq, Repr

/-- One `activity_by_day` entry. -/
structure DayEntry where
  date : String
  minutes : Int
deriving DecidableEq, Repr

/-- The `ReportAnalytics` dataclass. -/
structure ReportAnalytics where
  total_active_minutes : Int
  total_sessions : Nat
  top_apps : List TopApp
  top_windows : List TopWindow
  activity_by_hour : List Int
  activity_by_day : List DayEntry
  busiest_period : String
deriving DecidableEq, Repr

/-- `strftime('%A')`-based bucket of `_find_busiest_period`. -/
def periodOf (dt : DateTime) : String :=
  if dt.hour < 12 then "morning" else if dt.hour < 17 then "afternoon" else "evening"

/-- The `f"{day} {period}"` bucket key of `_find_busiest_period`. -/
def periodKeyOf (dt : DateTime) : String := weekdayName dt ++ " " ++ periodOf dt

/-- Python `max(items, key=...)`: returns the first element attaining the
maximal key (later elements replace the current one only when strictly
greater). -/
def pymaxBy (key : α → Nat) : List α → Option α
  | [] => none
  | x :: xs => some (xs.foldl (fun b y => if key y > key b then y else b) x)

/-- The `period_counts` dict built by `_find_busiest_period`. -/
def buildCounts (screenshots : List Screenshot) : List (String × Nat) :=
  screenshots.foldl (fun m ss => bump m (periodKeyOf ss.timestamp) 1) []

/-- `ReportGenerator._find_busiest_period`. -/
def find_busiest_period (screenshots : List Screenshot) : String :=
  if screenshots.isEmpty then "No activity"
  else
    let period_counts : List (String × Nat) := buildCounts screenshots
    if period_counts.isEmpty then "No activity"
    else
      match pymaxBy Prod.snd period_counts with
      | some kv => kv.1
      | none => "No activity"

/-- `ReportGenerator._compute_analytics`.  `interval_seconds` is the
configured capture interval (`config.capture.interval_seconds`); Python's
float arithmetic on `interval_seconds / 60` is modelled with exact
rationals.  A screenshot whose (impossible for a real `datetime`) hour is
outside `0..23` would raise `IndexError` in Python; here `List.set`
ignores it, so theorems about the hour histogram assume valid hours. -/
def compute_analytics (screenshots : List Screenshot) (sessions : List Session)
    (interval_seconds : ℚ) : ReportAnalytics :=
  let total_minutes : Int :=
    (sessions.map (fun s => (s.duration_seconds.getD 0).fdiv 60)).sum
  let interval_minutes : ℚ := interval_seconds / 60
  let app_minutes : List (String × ℚ) :=
    screenshots.foldl (fun m ss => bump m (orUnknown ss.app_name) interval_minutes) []
  let app_sum : ℚ := (app_minutes.map Prod.snd).sum
  let total_app_minutes : ℚ := if app_sum = 0 then 1 else app_sum
  let top_apps : List TopApp :=
    (pysorted (fun a b => decide (-a.minutes ≤ -b.minutes))
      (app_minutes.map (fun p =>
        TopApp.mk p.1 (truncQ p.2) (roundTenth (p.2 / total_app_minutes * 100))))).take 10
  let window_minutes : List (String × ℚ) :=
    screenshots.foldl (fun m ss =>
      let title := orUnknown ss.window_title
      let title := if title.length > 50 then strTake title 50 ++ "..." else title
      bump m title interval_minutes) []
  let top_windows : List TopWindow :=
    (pysorted (fun a b => decide (-a.minutes ≤ -b.minutes))
      (window_minutes.map (fun p => TopWindow.mk p.1 (truncQ p.2)))).take 10
  let hoursRaw : List ℚ :=
    screenshots.foldl
      (fun hs ss => hs.set ss.timestamp.hour (hs.getD ss.timestamp.hour 0 + interval_minutes))
      (List.replicate 24 0)
  let day_minutes : List (String × ℚ) :=
    screenshots.foldl (fun m ss => bump m (dateKey ss.timestamp) interval_minutes) []
  let activity_by_day : List DayEntry :=
    (pysorted (fun a b => !(decide (b.1 < a.1))) day_minutes).map
      (fun p => DayEntry.mk p.1 (truncQ p.2))
  { total_active_minutes := if total_minutes = 0 then truncQ app_sum else total_minutes
    total_sessions := sessions.length
    top_apps := top_apps
    top_windows := top_windows
    activity_by_hour := hoursRaw.map truncQ
    activity_by_day := activity_by_day
    busiest_period := find_busiest_period screenshots }

/-- `ReportGenerator._summary_duration_seconds`. -/
def summary_duration_seconds (s : Summary) : Int :=
  match s.start_time, s.end_time with
  | some st, some et =>
    if st.falsy || et.falsy then 0
    else
      match st.toDatetime, et.toDatetime with
      | some a, some b => toEpochSeconds b - toEpochSeconds a
      | _, _ => 0
  | _, _ => 0

/-- `summary.get('screenshot_ids', [])` followed by the `json.loads`
branch for serialized values; the stdlib JSON decoder is abstracted as the
`json_loads` parameter. -/
def getIds (json_loads : String → List Int) (s : Summary) : List Int :=
  match s.screenshot_ids with
  | .native xs => xs
  | .encoded str => json_loads str

/-- The inner `for ss in screenshots` scan of `_select_key_screenshots`:
select the first screenshot referenced by the current summary whose app is
new (or accept any match while fewer than `max_count // 2` are selected),
then stop scanning; `seen` is the `seen_apps` set. -/
def scanShots (max_count : Nat) (ss_ids : List Int) :
    List Screenshot → List Screenshot × List (Option String) →
    List Screenshot × List (Option String)
  | [], st => st
  | ss :: more, (selected, seen) =>
    if ss.id ∈ ss_ids then
      if ss.app_name ∉ seen ∨ selected.length < max_count / 2 then
        (selected ++ [ss], if ss.app_name ∈ seen then seen else ss.app_name :: seen)
      else scanShots max_count ss_ids more (selected, seen)
    else scanShots max_count ss_ids more (selected, seen)

/-- The per-summary loop of `_select_key_screenshots` (phase 1), with the
early `break` once `max_count` selections exist. -/
def phase1 (json_loads : String → List Int) (screenshots : List Screenshot) (max_count : Nat) :
    List Summary → List Screenshot × List (Option String) →
    List Screenshot × List (Option String)
  | [], st => st
  | summary :: rest, st =>
    let st' := scanShots max_count (getIds json_loads summary) screenshots st
    if st'.1.length ≥ max_count then st'
    else phase1 json_loads screenshots max_count rest st'

/-- `[l[i] for i in range(0, len(l), step)]`. -/
def strided (step : Nat) (l : List α) : List α :=
  (l.enum.filter (fun p => p.1 % step = 0)).map Prod.snd

/-- The backfill loop of `_select_key_screenshots` (phase 2): append each
strided screenshot not already selected, stopping at `max_count`. -/
def phase2 (max_count : Nat) : List Screenshot → List Screenshot → List Screenshot
  | [], selected => selected
  | ss :: more, selected =>
    let selected' := if ss ∈ selected then selected else selected ++ [ss]
    if selected'.length ≥ max_count then selected'
    else phase2 max_count more selected'

/-- `ReportGenerator._select_key_screenshots`. -/
def select_key_screenshots (json_loads : String → List Int)
    (screenshots : List Screenshot) (summaries : List Summary) (max_count : Nat) :
    List Screenshot :=
  if screenshots.isEmpty then []
  else
    let selected := (phase1 json_loads screenshots max_count summaries ([], [])).1
    let selected :=
      if selected.length < max_count ∧ ¬ screenshots.isEmpty then
        let remaining := max_count - selected.length
        let step := screenshots.length / (max remaining 1)
        phase2 max_count (strided (max step 1) screenshots) selected
      else selected
    selected.take max_count

/-- A report section (`ReportSection` dataclass). -/
structure ReportSection where
  title : String
  content : String
  screenshots : List Screenshot
deriving DecidableEq, Repr

/-- The `Report` dataclass; `generated_at` is the `datetime.now()` value,
threaded in as a parameter. -/
structure Report where
  title : String
  time_range : String
  generated_at : DateTime
  executive_summary : String
  sections : List ReportSection
  analytics : ReportAnalytics
  key_screenshots : List Screenshot
  raw_summaries : List Summary
deriving DecidableEq

/-- The narrative backend (`HybridSummarizer` boundary): `generate_text`
may block or raise; raising is modelled as `Except.error`. -/
structure Summarizer where
  avail : Bool
  generate_text : String → Except Unit String

/-- `self.summarizer and self.summarizer.is_available()`. -/
def summarizerReady : Option Summarizer → Bool
  | none => false
  | some s => s.avail

/-- `self.summarizer.generate_text(prompt)`. -/
def genText : Option Summarizer → String → Except Unit String
  | none, _ => .error ()
  | some s, p => s.generate_text p

/-- `[s['summary'] for s in summaries if s.get('summary')]`. -/
def summaryTexts (summaries : List Summary) : List String :=
  summaries.filterMap (fun s =>
    match s.summary with
    | some t => if t = "" then none else some t
    | none => none)

/-- `ReportGenerator._fallback_executive_summary`. -/
def fallback_executive_summary (summary_texts : List String)
    (analytics : ReportAnalytics) : String :=
  if summary_texts.isEmpty then "No activity recorded during this period."
  else
    String.intercalate ("\n")
      ([ "During this period, " ++ toString analytics.total_active_minutes ++
           " minutes of activity were recorded across " ++
           toString analytics.total_sessions ++ " sessions.",
         "",
         "Top applications used: " ++
           String.intercalate (", ") ((analytics.top_apps.take 3).map (fun a => a.name)) ++ ".",
         "",
         "Key activities:" ] ++
       (summary_texts.take 5).map (fun text =>
         "- " ++ (if text.length > 150 then strTake text 150 ++ "..." else text)))

/-- The apostrophe character (kept out of string literals). -/
def apos : String := String.singleton (Char.ofNat 39)

/-- Python `str.strip()`. -/
def pyStrip (s : String) : String :=
  ⟨((s.data.dropWhile Char.isWhitespace).reverse.dropWhile Char.isWhitespace).reverse⟩

/-- Python `str.lower()` (ASCII, as the skip-context labels are). -/
def pyLower (s : String) : String := ⟨s.data.map Char.toLower⟩

/-- `line.startswith(pat)`. -/
def listHeads [DecidableEq α] : List α → List α → Bool
  | [], _ => true
  | _ :: _, [] => false
  | p :: ps, c :: cs => if p = c then listHeads ps cs else false

/-- Python string slice `s[n:]`. -/
def strDrop (s : String) (n : Nat) : String := ⟨s.data.drop n⟩

/-- The `skip_contexts` set of non-work context labels. -/
def skip_contexts : List String :=
  ["browsing", "communication", "music", "media", "unknown"]

/-- The LLM prompt built by `_group_into_sections`. -/
def groupPrompt (summary_texts : List String) : String :=
  "Group these activities into 2-4 thematic categories.\nFor each category, provide a title and 1-sentence summary.\n\nActivities:\n" ++
  String.intercalate ("\n")
    (summary_texts.enum.map (fun p => toString (p.1 + 1) ++ ". " ++ p.2)) ++
  "\n\nFormat your response as:\n## Category Name\nBrief description of work in this category.\n\n## Another Category\nBrief description."

/-- The heading-delimited parse loop of `_group_into_sections`. -/
def sectionsFromLines :
    List String → Option String → List String → List ReportSection → List ReportSection
  | [], cur, content, sections =>
    (match cur with
     | some t => sections ++ [⟨t, String.intercalate (" ") content, []⟩]
     | none => sections)
  | line :: rest, cur, content, sections =>
    if listHeads ("## ").data line.data then
      let sections' :=
        match cur with
        | some t => sections ++ [⟨t, String.intercalate (" ") content, []⟩]
        | none => sections
      sectionsFromLines rest (some (pyStrip (strDrop line 3))) [] sections'
    else if pyStrip line ≠ "" ∧ cur.isSome then
      sectionsFromLines rest cur (content ++ [pyStrip line]) sections
    else sectionsFromLines rest cur content sections

/-- `ReportGenerator._group_into_sections`. -/
def group_into_sections (summarizer : Option Summarizer) (summaries : List Summary) :
    Except Unit (List ReportSection) :=
  if summaries.length < 3 then pure []
  else
    let summary_texts := summaryTexts summaries
    if summary_texts.isEmpty || !(summarizerReady summarizer) then pure []
    else do
      let response ← genText summarizer (groupPrompt summary_texts)
      pure (sectionsFromLines (response.splitOn ("\n")) none [] [])

/-- The per-project LLM prompt of `_generate_project_sections`. -/
def projectPrompt (project : String) (summary_texts : List String) : String :=
  "\nSummarize these activities for the \"" ++ project ++
  "\" project in 2-3 sentences.\nFocus on what was accomplished, not just what was done.\n\nActivities:\n" ++
  String.intercalate ("\n") (summary_texts.map (fun s => "- " ++ s)) ++
  "\n\nBe specific and technical. This is for a developer" ++ apos ++ "s activity report."

/-- `ReportGenerator._generate_project_sections`. -/
def generate_project_sections (summarizer : Option Summarizer)
    (summaries_by_project : List (String × List Summary)) :
    Except Unit (List ReportSection) :=
  let project_times : List (String × Int) :=
    summaries_by_project.map (fun p => (p.1, (p.2.map summary_duration_seconds).sum))
  let sorted_projects : List String :=
    (pysorted (fun a b => decide (-a.2 ≤ -b.2)) project_times).map Prod.fst
  sorted_projects.foldlM (fun sections project =>
    if skip_contexts.contains (pyLower project) then pure sections
    else
      match alistGet summaries_by_project project with
      | none => pure sections
      | some project_summaries =>
        let texts := summaryTexts project_summaries
        if texts.isEmpty then pure sections
        else do
          let content ←
            if summarizerReady summarizer then
              genText summarizer (projectPrompt project texts)
            else pure (String.intercalate (" ") (texts.take 3))
          pure (sections ++ [ReportSection.mk ("Project: " ++ project) content []])) []

/-- The project-aware executive-summary LLM prompt. -/
def paesPrompt (project_summaries : List String) (analytics : ReportAnalytics)
    (range_description : String) (nProjects : Nat) : String :=
  "Write a brief executive summary for a developer" ++ apos ++
  "s activity report.\n\nIMPORTANT: The following projects are UNRELATED to each other. Do NOT combine them or suggest connections.\n\nProjects worked on:\n" ++
  String.intercalate ("\n") project_summaries ++
  "\n\nTotal active time: " ++ toString analytics.total_active_minutes ++
  " minutes across " ++ toString nProjects ++
  " distinct contexts.\nTime period: " ++ range_description ++
  "\n\nWrite 2-3 sentences summarizing the activity. Treat each project as independent work.\nDo NOT say things like \"Project A within Project B\" - they are separate.\nFormat: List main accomplishments per project, then overall productivity note."

/-- `ReportGenerator._generate_project_aware_executive_summary`. -/
def generate_project_aware_executive_summary (summarizer : Option Summarizer)
    (summaries_by_project : List (String × List Summary))
    (analytics : ReportAnalytics) (range_description : String) : Except Unit String :=
  let project_summaries : List String :=
    summaries_by_project.filterMap (fun p =>
      if skip_contexts.contains (pyLower p.1) then none
      else
        let texts := summaryTexts p.2
        if texts.isEmpty then none
        else some ("**" ++ p.1 ++ "**: " ++ String.intercalate ("; ") (texts.take 3)))
  if project_summaries.isEmpty then pure ("No significant project activity recorded.")
  else if !(summarizerReady summarizer) then
    pure ("Active time: " ++ toString analytics.total_active_minutes ++ " minutes.\n\n" ++
      String.intercalate ("\n") project_summaries)
  else
    genText summarizer
      (paesPrompt project_summaries analytics range_description summaries_by_project.length)

/-- The theme-mode executive-summary LLM prompt of `_generate_summary`. -/
def execPrompt (range_description : String) (analytics : ReportAnalytics)
    (summary_texts : List String) : String :=
  "Synthesize these activity summaries into a coherent executive summary.\nTime period: " ++
  range_description ++
  "\nTotal active time: " ++ toString analytics.total_active_minutes ++
  " minutes\nTop applications: " ++
  String.intercalate (", ") ((analytics.top_apps.take 5).map (fun a => a.name)) ++
  "\n\nIndividual activity summaries:\n" ++
  String.intercalate ("\n") (summary_texts.map (fun s => "- " ++ s)) ++
  "\n\nWrite a 2-3 paragraph executive summary covering:\n1. Main focus areas and accomplishments\n2. Key projects or tasks worked on\n3. Notable patterns (if any)\n\nBe specific and use actual project names and technical terms from the summaries."

/-- `ReportGenerator._generate_summary`. -/
def generate_summary (now : DateTime) (summarizer : Option Summarizer)
    (summaries : List Summary) (analytics : ReportAnalytics)
    (range_description : String)
    (summaries_by_project : List (String × List Summary)) : Except Unit Report :=
  if summaries.isEmpty then
    pure { title := "Activity Report: " ++ range_description
           time_range := range_description
           generated_at := now
           executive_summary := "No activity recorded during this period."
           sections := []
           analytics := analytics
           key_screenshots := []
           raw_summaries := [] }
  else if !summaries_by_project.isEmpty && summaries_by_project.length > 1 then do
    let sections ← generate_project_sections summarizer summaries_by_project
    let executive_summary ←
      generate_project_aware_executive_summary summarizer summaries_by_project
        analytics range_description
    pure { title := "Activity Report: " ++ range_description
           time_range := range_description
           generated_at := now
           executive_summary := executive_summary
           sections := sections
           analytics := analytics
           key_screenshots := []
           raw_summaries := summaries }
  else do
    let summary_texts := summaryTexts summaries
    let executive_summary ←
      if summarizerReady summarizer then
        genText summarizer (execPrompt range_description analytics summary_texts)
      else pure (fallback_executive_summary summary_texts analytics)
    let sections ← group_into_sections summarizer summaries
    pure { title := "Activity Report: " ++ range_description
           time_range := range_description
           generated_at := now
           executive_summary := executive_summary
           sections := sections
           analytics := analytics
           key_screenshots := []
           raw_summaries := summaries }

/-! ### General lemmas about the embedded primitives -/

/-- A `bump` adds exactly `v` to the total of the dict's values. -/
theorem bump_sum (m : List (String × ℚ)) (k : String) (v : ℚ) :
    ((bump m k v).map Prod.snd).sum = (m.map Prod.snd).sum + v := by
  induction m with
  | nil => simp [bump]
  | cons p rest ih =>
    by_cases h : p.1 = k
    · simp [bump, h]
      ring
    · simp [bump, h, ih]
      ring

/-- Folding `bump` with a constant increment over a list adds
`length * v` to the total of the dict's values. -/
theorem foldl_bump_sum (f : Screenshot → String) (v : ℚ) (l : List Screenshot)
    (m0 : List (String × ℚ)) :
    (((l.foldl (fun m ss => bump m (f ss) v) m0)).map Prod.snd).sum =
      (m0.map Prod.snd).sum + l.length * v := by
  induction l generalizing m0 with
  | nil => simp
  | cons ss rest ih =>
    simp only [List.foldl_cons, ih, bump_sum, List.length_cons]
    push_cast
    ring

/-! ### C7 -/

/-- C7: `total_active_minutes` equals the session-derived minute sum when
that sum is non-zero, and otherwise falls back to the truncated
per-application minutes estimate, which totals
`len(screenshots) * interval_minutes`. -/
theorem c7_total_active_minutes_fallback (screenshots : List Screenshot)
    (sessions : List Session) (interval_seconds : ℚ) :
    (compute_analytics screenshots sessions interval_seconds).total_active_minutes =
      (if (sessions.map (fun s => (s.duration_seconds.getD 0).fdiv 60)).sum = 0
       then truncQ ((screenshots.length : ℚ) * (interval_seconds / 60))
       else (sessions.map (fun s => (s.duration_seconds.getD 0).fdiv 60)).sum) := by
  show (if _ = 0 then truncQ ((List.map Prod.snd _).sum) else _) = _
  rw [foldl_bump_sum]
  simp

/-! ### C6 -/

/-- C6: a `summary`-kind generation with zero screenshots, zero sessions
and zero summaries yields the literal "No activity recorded during this
period." executive summary, an empty section list, and analytics with
`total_active_minutes = 0`. -/
theorem c6_empty_period_report (now : DateTime) (summarizer : Option Summarizer)
    (interval_seconds : ℚ) (range_description : String) :
    generate_summary now summarizer [] (compute_analytics [] [] interval_seconds)
        range_description [] =
      .ok { title := "Activity Report: " ++ range_description
            time_range := range_description
            generated_at := now
            executive_summary := "No activity recorded during this period."
            sections := []
            analytics := compute_analytics [] [] interval_seconds
            key_screenshots := []
            raw_summaries := [] }
    ∧ (compute_analytics [] [] interval_seconds).total_active_minutes = 0 := by
  refine ⟨rfl, ?_⟩
  show (if (0 : Int) = 0 then truncQ (([] : List ℚ).sum) else 0) = 0
  simp [truncQ]

/-! ### C1 -/

/-- A backend that reports itself available but whose `generate_text`
raises on every call. -/
def failingBackend : Summarizer := ⟨true, fun _ => .error ()⟩

/-- C1 (refuted by the code): a raising `generate_text` is not caught;
with an available-but-failing backend, `_generate_summary` propagates the
exception instead of degrading to fallback text, both in theme mode and
in project mode. -/
theorem c1_backend_failure_propagates :
    (generate_summary ⟨2024, 1, 1, 12, 0, 0⟩ (some failingBackend)
        [⟨some ("Wrote code"), none, none, .native []⟩]
        (compute_analytics [] [] 30) ("today") [] = .error ())
    ∧ (generate_summary ⟨2024, 1, 1, 12, 0, 0⟩ (some failingBackend)
        [⟨some ("Wrote code"), none, none, .native []⟩,
         ⟨some ("Other work"), none, none, .native []⟩]
        (compute_analytics [] [] 30) ("today")
        [("alpha", [⟨some ("Wrote code"), none, none, .native []⟩]),
         ("beta", [⟨some ("Other work"), none, none, .native []⟩])] = .error ()) :=
  ⟨rfl, rfl⟩

/-! ### C9 -/

/-- C9: `_summary_duration_seconds` returns 0 when either bound is
missing or cannot be parsed, returns the end-minus-start difference in
whole seconds when both bounds parse, and returns 1800 on the concrete
09:00→09:30 scenario. -/
theorem c9_summary_duration_robust :
    (∀ s : Summary, s.start_time = none ∨ s.end_time = none →
        summary_duration_seconds s = 0)
    ∧ (∀ (s : Summary) (st et : TimeVal), s.start_time = some st →
        s.end_time = some et → st.toDatetime = none ∨ et.toDatetime = none →
        summary_duration_seconds s = 0)
    ∧ (∀ (s : Summary) (st et : TimeVal) (a b : DateTime), s.start_time = some st →
        s.end_time = some et → st.toDatetime = some a → et.toDatetime = some b →
        summary_duration_seconds s = toEpochSeconds b - toEpochSeconds a)
    ∧ summary_duration_seconds
        ⟨none, some (.str ("2024-01-01T09:00:00")),
         some (.str ("2024-01-01T09:30:00")), .native []⟩ = 1800 := by
  refine ⟨?_, ?_, ?_, by with_unfolding_all decide⟩
  · intro s h
    rcases h with h | h <;>
      · unfold summary_duration_seconds
        rcases hs : s.start_time with _ | st <;> rcases he : s.end_time with _ | et <;>
          simp_all
  · intro s st et hs he hp
    unfold summary_duration_seconds
    rw [hs, he]
    rcases hf : (st.falsy || et.falsy) with _ | _
    · simp only [hf, Bool.false_eq_true, if_false]
      rcases hp with hp | hp
      · rw [hp]
      · rw [hp]
        rcases st.toDatetime with _ | a <;> simp
    · simp [hf]
  · intro s st et a b hs he hpa hpb
    have hstf : st.falsy = false := by
      rcases st with d | str
      · rfl
      · rcases h : decide (str = "") with _ | _
        · simpa [TimeVal.falsy] using of_decide_eq_false h
        · exfalso
          have : str = "" := of_decide_eq_true h
          rw [this] at hpa
          simp [TimeVal.toDatetime, fromisoformat] at hpa
    have hetf : et.falsy = false := by
      rcases et with d | str
      · rfl
      · rcases h : decide (str = "") with _ | _
        · simpa [TimeVal.falsy] using of_decide_eq_false h
        · exfalso
          have : str = "" := of_decide_eq_true h
          rw [this] at hpb
          simp [TimeVal.toDatetime, fromisoformat] at hpb
    simp [summary_duration_seconds, hs, he, hstf, hetf, hpa, hpb]

/-- Witness for C9: each hypothesis of `c9_summary_duration_robust`
discharged at concrete inputs. -/
theorem c9_summary_duration_robust_witness :
    summary_duration_seconds ⟨none, none, some (.str ("2024-01-01")), .native []⟩ = 0
    ∧ summary_duration_seconds
        ⟨none, some (.str ("not a timestamp")), some (.str ("2024-01-01")), .native []⟩ = 0
    ∧ summary_duration_seconds
        ⟨none, some (.str ("2024-01-01T09:00:00")), some (.dt ⟨2024, 1, 1, 9, 0, 30⟩),
         .native []⟩ = 30 := by
  refine ⟨?_, ?_, ?_⟩
  · exact c9_summary_duration_robust.1 _ (Or.inl rfl)
  · exact c9_summary_duration_robust.2.1 _ (.str ("not a timestamp")) (.str ("2024-01-01"))
      rfl rfl (Or.inl (by with_unfolding_all decide))
  · rw [c9_summary_duration_robust.2.2.1 _ (.str ("2024-01-01T09:00:00"))
      (.dt ⟨2024, 1, 1, 9, 0, 30⟩) ⟨2024, 1, 1, 9, 0, 0⟩ ⟨2024, 1, 1, 9, 0, 30⟩
      rfl rfl (by with_unfolding_all decide) rfl]
    with_unfolding_all decide

/-! ### C10 -/

/-- C10: when both bounds parse and the end instant strictly precedes the
start instant, `_summary_duration_seconds` is strictly negative (no
clamping), and consequently a project whose summaries have negative total
duration is ranked below a project with zero total duration by
`_generate_project_sections` (shown on a concrete two-project input where
the negative-duration project "beta" is listed first yet sorted last). -/
theorem c10_negative_duration_ranks_last :
    (∀ (s : Summary) (st et : TimeVal) (a b : DateTime), s.start_time = some st →
        s.end_time = some et → st.toDatetime = some a → et.toDatetime = some b →
        toEpochSeconds b < toEpochSeconds a → summary_duration_seconds s < 0)
    ∧ generate_project_sections none
        [("beta", [⟨some ("Reversed work"), some (.str ("2024-01-01T09:30:00")),
                    some (.str ("2024-01-01T09:00:00")), .native []⟩]),
         ("alpha", [⟨some ("Other work"), none, none, .native []⟩])] =
      .ok [⟨"Project: alpha", "Other work", []⟩, ⟨"Project: beta", "Reversed work", []⟩] := by
  constructor
  · intro s st et a b hs he hpa hpb hlt
    rw [c9_summary_duration_robust.2.2.1 s st et a b hs he hpa hpb]
    omega
  · with_unfolding_all rfl

/-- Witness for C10: the general part applied to the concrete reversed
09:30→09:00 summary, certifying its duration is negative. -/
theorem c10_negative_duration_ranks_last_witness :
    summary_duration_seconds
      ⟨some ("Reversed work"), some (.str ("2024-01-01T09:30:00")),
       some (.str ("2024-01-01T09:00:00")), .native []⟩ < 0 :=
  c10_negative_duration_ranks_last.1 _ (.str ("2024-01-01T09:30:00"))
    (.str ("2024-01-01T09:00:00")) ⟨2024, 1, 1, 9, 30, 0⟩ ⟨2024, 1, 1, 9, 0, 0⟩
    rfl rfl (by with_unfolding_all decide) (by with_unfolding_all decide)
    (by with_unfolding_all decide)

/-! ### C2 -/

/-- The inner scan either selects nothing or appends exactly one
screenshot from the pool that the current summary references. -/
theorem scanShots_cases (mc : Nat) (ids : List Int) (shots : List Screenshot)
    (sel : List Screenshot) (seen : List (Option String)) :
    (scanShots mc ids shots (sel, seen)).1 = sel ∨
    ∃ ss, ss ∈ shots ∧ ss.id ∈ ids ∧
      (scanShots mc ids shots (sel, seen)).1 = sel ++ [ss] := by
  induction shots with
  | nil => exact Or.inl rfl
  | cons ss more ih =>
    by_cases hid : ss.id ∈ ids
    · by_cases hsel : ss.app_name ∉ seen ∨ sel.length < mc / 2
      · right
        refine ⟨ss, List.mem_cons_self _ _, hid, ?_⟩
        simp [scanShots, hid, hsel]
      · have hstep : scanShots mc ids (ss :: more) (sel, seen) =
            scanShots mc ids more (sel, seen) := by
          simp [scanShots, hid, hsel]
        rw [hstep]
        rcases ih with h | ⟨ss', hm, hi, he⟩
        · exact Or.inl h
        · exact Or.inr ⟨ss', List.mem_cons_of_mem _ hm, hi, he⟩
    · have hstep : scanShots mc ids (ss :: more) (sel, seen) =
          scanShots mc ids more (sel, seen) := by
        simp [scanShots, hid]
      rw [hstep]
      rcases ih with h | ⟨ss', hm, hi, he⟩
      · exact Or.inl h
      · exact Or.inr ⟨ss', List.mem_cons_of_mem _ hm, hi, he⟩

/-- Phase-1 invariant: when the remaining summaries reference pairwise
disjoint id sets and no already-selected id is referenced by a remaining
summary, phase 1 keeps the selected ids duplicate-free, and every
selection comes from the screenshot pool. -/
theorem phase1_invariant (jl : String → List Int) (screenshots : List Screenshot)
    (mc : Nat) (rest : List Summary) :
    ∀ (sel : List Screenshot) (seen : List (Option String)),
      rest.Pairwise (fun s1 s2 => ∀ i, i ∈ getIds jl s1 → i ∉ getIds jl s2) →
      ((sel.map (fun ss => ss.id)).Nodup ∧ (∀ ss ∈ sel, ss ∈ screenshots) ∧
        (∀ ss ∈ sel, ∀ t ∈ rest, ss.id ∉ getIds jl t)) →
      (((phase1 jl screenshots mc rest (sel, seen)).1.map (fun ss => ss.id)).Nodup ∧
        ∀ ss ∈ (phase1 jl screenshots mc rest (sel, seen)).1, ss ∈ screenshots) := by
  induction rest with
  | nil => intro sel seen _ h; exact ⟨h.1, h.2.1⟩
  | cons t rest' ih =>
    intro sel seen hpw h
    obtain ⟨h1, h2, h3⟩ := h
    obtain ⟨hpt, hpw'⟩ := List.pairwise_cons.mp hpw
    have hsel' : ((scanShots mc (getIds jl t) screenshots (sel, seen)).1.map
          (fun ss => ss.id)).Nodup ∧
        (∀ ss ∈ (scanShots mc (getIds jl t) screenshots (sel, seen)).1, ss ∈ screenshots) ∧
        (∀ ss ∈ (scanShots mc (getIds jl t) screenshots (sel, seen)).1,
          ∀ u ∈ rest', ss.id ∉ getIds jl u) := by
      obtain hcase | ⟨ss0, hm0, hi0, he0⟩ :=
        scanShots_cases mc (getIds jl t) screenshots sel seen
      · rw [hcase]
        exact ⟨h1, h2, fun ss hss u hu => h3 ss hss u (List.mem_cons_of_mem _ hu)⟩
      · rw [he0]
        refine ⟨?_, ?_, ?_⟩
        · rw [List.map_append, List.nodup_append]
          refine ⟨h1, List.nodup_singleton _, ?_⟩
          intro a ha hb
          simp only [List.map_cons, List.map_nil, List.mem_singleton] at hb
          obtain ⟨ss', hss', hsa⟩ := List.mem_map.mp ha
          exact h3 ss' hss' t (List.mem_cons_self _ _) (by rw [hsa, hb]; exact hi0)
        · intro ss hss
          rcases List.mem_append.mp hss with hin | hin
          · exact h2 ss hin
          · rw [List.mem_singleton.mp hin]; exact hm0
        · intro ss hss u hu
          rcases List.mem_append.mp hss with hin | hin
          · exact h3 ss hin u (List.mem_cons_of_mem _ hu)
          · rw [List.mem_singleton.mp hin]
            exact hpt u hu ss0.id hi0
    simp only [phase1]
    split
    · exact ⟨hsel'.1, hsel'.2.1⟩
    · exact ih _ _ hpw' ⟨hsel'.1, hsel'.2.1, hsel'.2.2⟩

/-- Phase-2 invariant: the backfill loop preserves id-distinctness of the
selection (its membership guard plus globally distinct screenshot ids). -/
theorem phase2_invariant (mc : Nat) (screenshots : List Screenshot)
    (hN : (screenshots.map (fun ss => ss.id)).Nodup) (pool : List Screenshot) :
    ∀ sel : List Screenshot,
      (∀ ss ∈ pool, ss ∈ screenshots) →
      (∀ ss ∈ sel, ss ∈ screenshots) →
      (sel.map (fun ss => ss.id)).Nodup →
      ((phase2 mc pool sel).map (fun ss => ss.id)).Nodup ∧
        ∀ ss ∈ phase2 mc pool sel, ss ∈ screenshots := by
  induction pool with
  | nil => intro sel _ h2 h1; exact ⟨h1, h2⟩
  | cons ss pool' ih =>
    intro sel hpool hsel h1
    have hss : ss ∈ screenshots := hpool ss (List.mem_cons_self _ _)
    have hpool' : ∀ x ∈ pool', x ∈ screenshots :=
      fun x hx => hpool x (List.mem_cons_of_mem _ hx)
    simp only [phase2]
    by_cases hmem : ss ∈ sel
    · simp only [if_pos hmem]
      split
      · exact ⟨h1, hsel⟩
      · exact ih sel hpool' hsel h1
    · simp only [if_neg hmem]
      have hsel2 : ∀ x ∈ sel ++ [ss], x ∈ screenshots := by
        intro x hx
        rcases List.mem_append.mp hx with hin | hin
        · exact hsel x hin
        · rw [List.mem_singleton.mp hin]; exact hss
      have h1' : ((sel ++ [ss]).map (fun s => s.id)).Nodup := by
        rw [List.map_append, List.nodup_append]
        refine ⟨h1, List.nodup_singleton _, ?_⟩
        intro a ha hb
        simp only [List.map_cons, List.map_nil, List.mem_singleton] at hb
        obtain ⟨x, hx, hxa⟩ := List.mem_map.mp ha
        apply hmem
        have hxss : x = ss :=
          List.inj_on_of_nodup_map hN (hsel x hx) hss (by rw [hxa, hb])
        rw [← hxss]
        exact hx
      split
      · exact ⟨h1', hsel2⟩
      · exact ih (sel ++ [ss]) hpool' hsel2 h1'

/-- The strided backfill pool is a sublist of the screenshot list. -/
theorem strided_sublist (step : Nat) (l : List α) : List.Sublist (strided step l) l := by
  unfold strided
  conv_rhs => rw [← List.enum_map_snd l]
  exact (List.filter_sublist _).map Prod.snd

/-- C2 (amended): the selected list never exceeds `max_count` entries;
id-distinctness additionally holds whenever distinct summaries reference
disjoint screenshot-id sets and screenshot ids are pairwise distinct
(without the disjointness proviso the per-summary phase can select one
screenshot twice, see the counterexample). -/
theorem c2_selection_bounded (jl : String → List Int) (screenshots : List Screenshot)
    (summaries : List Summary) (max_count : Nat) :
    (select_key_screenshots jl screenshots summaries max_count).length ≤ max_count ∧
    ((screenshots.map (fun ss => ss.id)).Nodup →
      summaries.Pairwise (fun s1 s2 => ∀ i, i ∈ getIds jl s1 → i ∉ getIds jl s2) →
      ((select_key_screenshots jl screenshots summaries max_count).map
          (fun ss => ss.id)).Nodup) := by
  constructor
  · simp only [select_key_screenshots]
    split
    · simp
    · exact List.length_take_le _ _
  · intro hN hpw
    simp only [select_key_screenshots]
    split
    · simp
    · have hp1 := phase1_invariant jl screenshots max_count summaries [] [] hpw
        ⟨List.nodup_nil, by simp, by simp⟩
      have htake : ∀ X : List Screenshot, ((X.map (fun ss => ss.id)).Nodup) →
          (((X.take max_count).map (fun ss => ss.id)).Nodup) := by
        intro X hX
        rw [List.map_take]
        exact hX.sublist (List.take_sublist _ _)
      apply htake
      split
      · exact (phase2_invariant max_count screenshots hN _ _
          (fun x hx => (strided_sublist _ _).subset hx) hp1.2 hp1.1).1
      · exact hp1.1

/-- Witness for C2 (amended): the distinctness hypotheses discharged on a
concrete two-summary, two-screenshot input. -/
theorem c2_selection_bounded_witness :
    (select_key_screenshots (fun _ => [])
        [⟨1, ⟨2024, 1, 1, 9, 0, 0⟩, some ("A"), none⟩,
         ⟨2, ⟨2024, 1, 1, 10, 0, 0⟩, some ("B"), none⟩]
        [⟨none, none, none, .native [1]⟩, ⟨none, none, none, .native [2]⟩]
        2).length ≤ 2 ∧
    ((select_key_screenshots (fun _ => [])
        [⟨1, ⟨2024, 1, 1, 9, 0, 0⟩, some ("A"), none⟩,
         ⟨2, ⟨2024, 1, 1, 10, 0, 0⟩, some ("B"), none⟩]
        [⟨none, none, none, .native [1]⟩, ⟨none, none, none, .native [2]⟩]
        2).map (fun ss => ss.id)).Nodup := by
  have h := c2_selection_bounded (fun _ => [])
    [⟨1, ⟨2024, 1, 1, 9, 0, 0⟩, some ("A"), none⟩,
     ⟨2, ⟨2024, 1, 1, 10, 0, 0⟩, some ("B"), none⟩]
    [⟨none, none, none, .native [1]⟩, ⟨none, none, none, .native [2]⟩] 2
  exact ⟨h.1, h.2 (by decide) (by decide)⟩

/-- C2 counterexample: two summaries referencing the same screenshot id
make phase 1 select that screenshot twice (`len(selected) < max_count //
2` bypasses the seen-apps check and phase 1 has no duplicate guard), so
the claimed no-duplicate-ids property fails. -/
theorem c2_duplicate_id_counterexample :
    (select_key_screenshots (fun _ => []) [⟨1, ⟨2024, 1, 1, 9, 0, 0⟩, some ("X"), none⟩]
        [⟨none, none, none, .native [1]⟩, ⟨none, none, none, .native [1]⟩] 4).map
        (fun ss => ss.id) = [1, 1] ∧
    ¬ ((select_key_screenshots (fun _ => []) [⟨1, ⟨2024, 1, 1, 9, 0, 0⟩, some ("X"), none⟩]
        [⟨none, none, none, .native [1]⟩, ⟨none, none, none, .native [1]⟩] 4).map
        (fun ss => ss.id)).Nodup := by
  constructor
  · with_unfolding_all rfl
  · with_unfolding_all decide

/-! ### C3 -/

/-- C3 (amended): for a non-empty summary list, project-aware sections
and the project-aware executive summary are used if and only if the
by-project map has strictly more than one entry — counting every project
label, non-work contexts included; the non-work-context filter is applied
only later, inside the project-mode helpers. -/
theorem c3_project_mode_condition (now : DateTime) (summarizer : Option Summarizer)
    (summaries : List Summary) (analytics : ReportAnalytics)
    (range_description : String) (summaries_by_project : List (String × List Summary))
    (h : summaries ≠ []) :
    generate_summary now summarizer summaries analytics range_description
        summaries_by_project =
      if 1 < summaries_by_project.length then
        (do
          let sections ← generate_project_sections summarizer summaries_by_project
          let executive_summary ←
            generate_project_aware_executive_summary summarizer summaries_by_project
              analytics range_description
          pure { title := "Activity Report: " ++ range_description
                 time_range := range_description
                 generated_at := now
                 executive_summary := executive_summary
                 sections := sections
                 analytics := analytics
                 key_screenshots := []
                 raw_summaries := summaries })
      else
        (do
          let executive_summary ←
            if summarizerReady summarizer then
              genText summarizer
                (execPrompt range_description analytics (summaryTexts summaries))
            else pure (fallback_executive_summary (summaryTexts summaries) analytics)
          let sections ← group_into_sections summarizer summaries
          pure { title := "Activity Report: " ++ range_description
                 time_range := range_description
                 generated_at := now
                 executive_summary := executive_summary
                 sections := sections
                 analytics := analytics
                 key_screenshots := []
                 raw_summaries := summaries }) := by
  have hne : summaries.isEmpty = false := by
    rcases summaries with _ | _
    · exact absurd rfl h
    · rfl
  rcases summaries_by_project with _ | ⟨p, rest⟩
  · simp [generate_summary, hne]
  · simp only [generate_summary, hne, Bool.false_eq_true, if_false,
      List.isEmpty_cons, Bool.not_false, Bool.true_and, List.length_cons]
    rcases Nat.lt_or_ge 1 (rest.length + 1) with hlen | hlen
    · simp [hlen, Nat.lt_iff_add_one_le.mp hlen]
    · have : ¬ 1 < rest.length + 1 := Nat.not_lt.mpr hlen
      simp [this]

/-- Witness for C3 (amended): with one summary and an empty by-project
map, the else-branch (plain fallback) is selected. -/
theorem c3_project_mode_condition_witness :
    Except.map (fun r => r.executive_summary)
      (generate_summary ⟨2024, 1, 1, 12, 0, 0⟩ none
        [⟨some ("Wrote code"), none, none, .native []⟩]
        (compute_analytics [] [] 30) ("today") []) =
      .ok (fallback_executive_summary [("Wrote code")] (compute_analytics [] [] 30)) := by
  rw [c3_project_mode_condition _ _ _ _ _ _ (by simp)]
  with_unfolding_all rfl

/-- C3 counterexample: a by-project map holding one non-work context
("browsing") and one work project ("alpha") leaves a single project after
non-work filtering, yet the code still uses project mode — the executive
summary is the project-aware listing, not the theme/plain fallback the
claim requires for this input. -/
theorem c3_project_mode_counterexample :
    Except.map (fun r => r.executive_summary)
      (generate_summary ⟨2024, 1, 1, 12, 0, 0⟩ none
        [⟨some ("Browsing the web"), none, none, .native []⟩,
         ⟨some ("Alpha work"), none, none, .native []⟩]
        (compute_analytics [] [] 30) ("today")
        [("browsing", [⟨some ("Browsing the web"), none, none, .native []⟩]),
         ("alpha", [⟨some ("Alpha work"), none, none, .native []⟩])]) =
      .ok ("Active time: 0 minutes.\n\n**alpha**: Alpha work") ∧
    (([("browsing", [⟨some ("Browsing the web"), none, none, IdsVal.native []⟩]),
       ("alpha", [⟨some ("Alpha work"), none, none, IdsVal.native []⟩])] :
        List (String × List Summary)).filter
        (fun p => !(skip_contexts.contains (pyLower p.1)))).length = 1 ∧
    fallback_executive_summary
        (summaryTexts [⟨some ("Browsing the web"), none, none, .native []⟩,
                       ⟨some ("Alpha work"), none, none, .native []⟩])
        (compute_analytics [] [] 30) ≠
      ("Active time: 0 minutes.\n\n**alpha**: Alpha work") := by
  refine ⟨by with_unfolding_all rfl, by with_unfolding_all rfl, ?_⟩
  with_unfolding_all decide

/-! ### Shared lemmas: permutation of `pysorted`, truncation bounds -/

/-- `insertOrd` only reorders: its result is a permutation of consing. -/
theorem insertOrd_perm (le : α → α → Bool) (x : α) (l : List α) :
    List.Perm (insertOrd le x l) (x :: l) := by
  induction l with
  | nil => exact List.Perm.refl _
  | cons y ys ih =>
    simp only [insertOrd]
    split
    · exact (ih.cons y).trans (List.Perm.swap x y ys)
    · exact List.Perm.refl _

/-- `pysorted` is a permutation of its input. -/
theorem pysorted_perm (le : α → α → Bool) (l : List α) :
    List.Perm (pysorted le l) l := by
  suffices h : ∀ (l acc : List α),
      List.Perm (l.foldl (fun a x => insertOrd le x a) acc) (acc ++ l) by
    simpa using h l []
  intro l
  induction l with
  | nil => intro acc; simp
  | cons x l' ih =>
    intro acc
    refine ((ih (insertOrd le x acc)).trans ?_)
    refine List.Perm.trans (List.Perm.append_right l' (insertOrd_perm le x acc)) ?_
    exact List.perm_middle.symm

/-- For a non-negative rational, Python truncation agrees with floor. -/
theorem truncQ_eq_floor (q : ℚ) (h : 0 ≤ q) : truncQ q = ⌊q⌋ := by
  rw [truncQ, Rat.floor_def]
  exact Int.tdiv_eq_ediv (Rat.num_nonneg.mpr h) (Int.ofNat_nonneg _)

/-- Truncation of a non-negative rational is a lower approximation. -/
theorem truncQ_le (q : ℚ) (h : 0 ≤ q) : (truncQ q : ℚ) ≤ q := by
  rw [truncQ_eq_floor q h]
  exact Int.floor_le q

/-- Truncation of a non-negative rational loses strictly less than one. -/
theorem sub_one_lt_truncQ (q : ℚ) (h : 0 ≤ q) : q - 1 < (truncQ q : ℚ) := by
  rw [truncQ_eq_floor q h]
  exact Int.sub_one_lt_floor q

/-- Truncation keeps non-negativity. -/
theorem truncQ_nonneg (q : ℚ) (h : 0 ≤ q) : 0 ≤ truncQ q := by
  rw [truncQ_eq_floor q h]
  exact Int.floor_nonneg.mpr h

/-- Per-bucket truncation: the truncated sum is at most the exact sum and
falls short of it by less than one per bucket. -/
theorem trunc_sum_bounds (l : List ℚ) (h : ∀ x ∈ l, 0 ≤ x) :
    ((l.map truncQ).map (fun n : Int => (n : ℚ))).sum ≤ l.sum ∧
    l.sum - l.length ≤ ((l.map truncQ).map (fun n : Int => (n : ℚ))).sum := by
  induction l with
  | nil => simp
  | cons a t ih =>
    have ha : 0 ≤ a := h a (List.mem_cons_self _ _)
    have ht := ih (fun x hx => h x (List.mem_cons_of_mem _ hx))
    have h1 : (truncQ a : ℚ) ≤ a := truncQ_le a ha
    have h2 : a - 1 < (truncQ a : ℚ) := sub_one_lt_truncQ a ha
    simp only [List.map_cons, List.sum_cons, List.length_cons]
    push_cast
    constructor
    · linarith [ht.1]
    · linarith [ht.2]

/-- Values in a dict stay non-negative under non-negative `bump`s. -/
theorem bump_values_nonneg (m : List (String × ℚ)) (k : String) (v : ℚ)
    (hm : ∀ p ∈ m, 0 ≤ p.2) (hv : 0 ≤ v) : ∀ p ∈ bump m k v, 0 ≤ p.2 := by
  induction m with
  | nil =>
    intro p hp
    simp only [bump, List.mem_singleton] at hp
    rw [hp]
    exact hv
  | cons q rest ih =>
    intro p hp
    simp only [bump] at hp
    split at hp
    · rcases List.mem_cons.mp hp with h | h
      · rw [h]
        have := hm q (List.mem_cons_self _ _)
        simp only []
        exact add_nonneg this hv
      · exact hm p (List.mem_cons_of_mem _ h)
    · rcases List.mem_cons.mp hp with h | h
      · rw [h]; exact hm q (List.mem_cons_self _ _)
      · exact ih (fun r hr => hm r (List.mem_cons_of_mem _ hr)) p h

/-- A `bump` grows the dict by at most one entry. -/
theorem bump_length_le (m : List (String × ℚ)) (k : String) (v : ℚ) :
    (bump m k v).length ≤ m.length + 1 := by
  induction m with
  | nil => simp [bump]
  | cons q rest ih =>
    simp only [bump]
    split
    · simp
    · simpa using Nat.succ_le_succ ih

/-- Folding `bump` over screenshots keeps every dict value non-negative. -/
theorem foldl_bump_values_nonneg (f : Screenshot → String) (v : ℚ) (hv : 0 ≤ v)
    (l : List Screenshot) :
    ∀ (m0 : List (String × ℚ)), (∀ p ∈ m0, 0 ≤ p.2) →
      ∀ p ∈ l.foldl (fun m ss => bump m (f ss) v) m0, 0 ≤ p.2 := by
  induction l with
  | nil => intro m0 h0; simpa using h0
  | cons ss rest ih =>
    intro m0 h0
    exact ih (bump m0 (f ss) v) (bump_values_nonneg m0 (f ss) v h0 hv)

/-- Folding `bump` over screenshots adds at most one dict entry each. -/
theorem foldl_bump_length_le (f : Screenshot → String) (v : ℚ) (l : List Screenshot) :
    ∀ m0 : List (String × ℚ),
      (l.foldl (fun m ss => bump m (f ss) v) m0).length ≤ m0.length + l.length := by
  induction l with
  | nil => intro m0; simp
  | cons ss rest ih =>
    intro m0
    calc (List.foldl (fun m s => bump m (f s) v) (bump m0 (f ss) v) rest).length
        ≤ (bump m0 (f ss) v).length + rest.length := ih _
      _ ≤ (m0.length + 1) + rest.length :=
          Nat.add_le_add_right (bump_length_le m0 (f ss) v) _
      _ = m0.length + (ss :: rest).length := by simp; omega

/-! ### C5: lemmas about the hour histogram fold -/

/-- Adding `v` to an in-range bucket raises the list total by `v`. -/
theorem sum_set_add (v : ℚ) : ∀ (hs : List ℚ) (i : Nat), i < hs.length →
    (hs.set i (hs.getD i 0 + v)).sum = hs.sum + v := by
  intro hs
  induction hs with
  | nil => intro i hi; simp at hi
  | cons a t ih =>
    intro i hi
    cases i with
    | zero =>
      simp only [List.getD_cons_zero, List.set]
      simp [add_assoc, add_comm, add_left_comm]
    | succ n =>
      simp only [List.getD_cons_succ, List.set, List.sum_cons]
      rw [ih n (by simpa using hi)]
      ring

/-- The hour fold preserves the bucket count. -/
theorem hourFold_length (v : ℚ) (l : List Screenshot) :
    ∀ hs : List ℚ,
      (l.foldl (fun hs ss =>
        hs.set ss.timestamp.hour (hs.getD ss.timestamp.hour 0 + v)) hs).length =
      hs.length := by
  induction l with
  | nil => intro hs; rfl
  | cons ss rest ih =>
    intro hs
    rw [List.foldl_cons, ih, List.length_set]

/-- With all hours in range, the hour fold adds exactly `v` per
screenshot to the bucket total. -/
theorem hourFold_sum (v : ℚ) (l : List Screenshot) :
    ∀ hs : List ℚ, (∀ ss ∈ l, ss.timestamp.hour < hs.length) →
      (l.foldl (fun hs ss =>
        hs.set ss.timestamp.hour (hs.getD ss.timestamp.hour 0 + v)) hs).sum =
      hs.sum + l.length * v := by
  induction l with
  | nil => intro hs _; simp
  | cons ss rest ih =>
    intro hs hh
    rw [List.foldl_cons, ih _ (fun x hx => by
      rw [List.length_set]
      exact hh x (List.mem_cons_of_mem _ hx))]
    rw [sum_set_add v hs _ (hh ss (List.mem_cons_self _ _))]
    simp only [List.length_cons]
    push_cast
    ring

/-- Bucket values stay non-negative through the hour fold. -/
theorem hourFold_nonneg (v : ℚ) (hv : 0 ≤ v) (l : List Screenshot) :
    ∀ hs : List ℚ, (∀ x ∈ hs, 0 ≤ x) →
      ∀ x ∈ l.foldl (fun hs ss =>
        hs.set ss.timestamp.hour (hs.getD ss.timestamp.hour 0 + v)) hs, 0 ≤ x := by
  induction l with
  | nil => intro hs h; simpa using h
  | cons ss rest ih =>
    intro hs h
    apply ih
    intro x hx
    rcases List.mem_or_eq_of_mem_set hx with hmem | heq
    · exact h x hmem
    · rw [heq]
      have hd : 0 ≤ hs.getD ss.timestamp.hour 0 := by
        rcases Nat.lt_or_ge ss.timestamp.hour hs.length with hlt | hge
        · rw [List.getD_eq_getElem hs 0 hlt]
          exact h _ (List.getElem_mem hlt)
        · rw [List.getD_eq_default hs 0 hge]
      exact add_nonneg hd hv

/-- C5 (amended): both histogram totals equal
`interval_minutes * len(screenshots)` before per-bucket truncation; after
the per-bucket `int()` each reported total is at most the exact total and
within one minute per bucket below it (24 hour-buckets; at most one
day-bucket per screenshot).  The two reported integer totals need not be
equal (see the counterexample). -/
theorem compute_analytics_by_hour (screenshots : List Screenshot)
    (sessions : List Session) (interval_seconds : ℚ) :
    (compute_analytics screenshots sessions interval_seconds).activity_by_hour =
      (screenshots.foldl
        (fun hs ss => hs.set ss.timestamp.hour
          (hs.getD ss.timestamp.hour 0 + interval_seconds / 60))
        (List.replicate 24 0)).map truncQ := rfl

theorem compute_analytics_by_day (screenshots : List Screenshot)
    (sessions : List Session) (interval_seconds : ℚ) :
    (compute_analytics screenshots sessions interval_seconds).activity_by_day =
      (pysorted (fun a b => !(decide (b.1 < a.1)))
        (screenshots.foldl
          (fun m ss => bump m (dateKey ss.timestamp) (interval_seconds / 60)) [])).map
        (fun p => DayEntry.mk p.1 (truncQ p.2)) := rfl

theorem c5_histogram_sums (screenshots : List Screenshot) (sessions : List Session)
    (interval_seconds : ℚ)
    (hhours : ∀ ss ∈ screenshots, ss.timestamp.hour < 24)
    (hiv : 0 ≤ interval_seconds) :
    (((compute_analytics screenshots sessions interval_seconds).activity_by_hour.map
        (fun n : Int => (n : ℚ))).sum ≤
      (screenshots.length : ℚ) * (interval_seconds / 60) ∧
     (screenshots.length : ℚ) * (interval_seconds / 60) - 24 ≤
      ((compute_analytics screenshots sessions interval_seconds).activity_by_hour.map
        (fun n : Int => (n : ℚ))).sum) ∧
    (((compute_analytics screenshots sessions interval_seconds).activity_by_day.map
        (fun e => (e.minutes : ℚ))).sum ≤
      (screenshots.length : ℚ) * (interval_seconds / 60) ∧
     (screenshots.length : ℚ) * (interval_seconds / 60) - screenshots.length ≤
      ((compute_analytics screenshots sessions interval_seconds).activity_by_day.map
        (fun e => (e.minutes : ℚ))).sum) := by
  have hivm : 0 ≤ interval_seconds / 60 := by positivity
  constructor
  · -- hour histogram
    rw [compute_analytics_by_hour]
    set hoursRaw := screenshots.foldl
      (fun hs ss => hs.set ss.timestamp.hour
        (hs.getD ss.timestamp.hour 0 + interval_seconds / 60))
      (List.replicate 24 0) with hdef
    have hlen : hoursRaw.length = 24 := by
      rw [hdef, hourFold_length]
      simp
    have hsum : hoursRaw.sum = (screenshots.length : ℚ) * (interval_seconds / 60) := by
      rw [hdef, hourFold_sum _ _ _ (fun ss hss => by
        rw [List.length_replicate]; exact hhours ss hss)]
      simp
    have hnn : ∀ x ∈ hoursRaw, 0 ≤ x := by
      rw [hdef]
      refine hourFold_nonneg _ hivm _ _ ?_
      intro x hx
      rw [List.eq_of_mem_replicate hx]
    have hb := trunc_sum_bounds hoursRaw hnn
    rw [hsum, hlen] at hb
    exact ⟨hb.1, by exact_mod_cast hb.2⟩
  · -- day histogram
    rw [compute_analytics_by_day]
    set day_minutes := screenshots.foldl
      (fun m ss => bump m (dateKey ss.timestamp) (interval_seconds / 60)) []
      with ddef
    have hperm : List.Perm (pysorted (fun a b => !(decide (b.1 < a.1))) day_minutes)
        day_minutes := pysorted_perm _ _
    have hmapeq : ∀ X : List (String × ℚ),
        ((X.map (fun p => DayEntry.mk p.1 (truncQ p.2))).map
          (fun e => (e.minutes : ℚ))).sum =
        (((X.map Prod.snd).map truncQ).map (fun n : Int => (n : ℚ))).sum := by
      intro X
      simp only [List.map_map]
      rfl
    rw [hmapeq]
    have hpermsum :
        ((((pysorted (fun a b => !(decide (b.1 < a.1))) day_minutes).map
          Prod.snd).map truncQ).map (fun n : Int => (n : ℚ))).sum =
        (((day_minutes.map Prod.snd).map truncQ).map (fun n : Int => (n : ℚ))).sum :=
      List.Perm.sum_eq (((hperm.map Prod.snd).map truncQ).map _)
    rw [hpermsum]
    have hvals : ∀ x ∈ day_minutes.map Prod.snd, 0 ≤ x := by
      intro x hx
      obtain ⟨p, hp, rfl⟩ := List.mem_map.mp hx
      exact foldl_bump_values_nonneg _ _ hivm screenshots [] (by simp) p hp
    have hsum : (day_minutes.map Prod.snd).sum =
        (screenshots.length : ℚ) * (interval_seconds / 60) := by
      rw [ddef, foldl_bump_sum]
      simp
    have hlen : (day_minutes.map Prod.snd).length ≤ screenshots.length := by
      rw [List.length_map, ddef]
      simpa using foldl_bump_length_le (fun ss => dateKey ss.timestamp)
        (interval_seconds / 60) screenshots []
    have hb := trunc_sum_bounds (day_minutes.map Prod.snd) hvals
    rw [hsum] at hb
    refine ⟨hb.1, ?_⟩
    have hc : ((day_minutes.map Prod.snd).length : ℚ) ≤ (screenshots.length : ℚ) := by
      exact_mod_cast hlen
    linarith [hb.2]

/-- Witness for C5 (amended): hypotheses discharged on two concrete
screenshots with valid hours and a 30-second interval. -/
theorem c5_histogram_sums_witness :
    (((compute_analytics
        [⟨0, ⟨2024, 1, 1, 1, 0, 0⟩, some ("A"), none⟩,
         ⟨1, ⟨2024, 1, 1, 2, 0, 0⟩, some ("A"), none⟩] [] 30).activity_by_hour.map
        (fun n : Int => (n : ℚ))).sum ≤ (2 : ℚ) * (30 / 60)) ∧
    ((2 : ℚ) * (30 / 60) - 24 ≤
      ((compute_analytics
        [⟨0, ⟨2024, 1, 1, 1, 0, 0⟩, some ("A"), none⟩,
         ⟨1, ⟨2024, 1, 1, 2, 0, 0⟩, some ("A"), none⟩] [] 30).activity_by_hour.map
        (fun n : Int => (n : ℚ))).sum) := by
  have h := c5_histogram_sums
    [⟨0, ⟨2024, 1, 1, 1, 0, 0⟩, some ("A"), none⟩,
     ⟨1, ⟨2024, 1, 1, 2, 0, 0⟩, some ("A"), none⟩] [] 30
    (by intro ss hss; fin_cases hss <;> norm_num) (by norm_num)
  exact ⟨h.1.1, h.1.2⟩

/-- C5 counterexample: two screenshots in distinct hours of one day at a
30-second interval give an hour-histogram total of 0 but a day total of 1
— the two reported sums are not equal, refuting the claimed equality. -/
theorem c5_histogram_sums_counterexample :
    (compute_analytics
        [⟨0, ⟨2024, 1, 1, 1, 0, 0⟩, some ("A"), none⟩,
         ⟨1, ⟨2024, 1, 1, 2, 0, 0⟩, some ("A"), none⟩] [] 30).activity_by_hour.sum = 0 ∧
    ((compute_analytics
        [⟨0, ⟨2024, 1, 1, 1, 0, 0⟩, some ("A"), none⟩,
         ⟨1, ⟨2024, 1, 1, 2, 0, 0⟩, some ("A"), none⟩] [] 30).activity_by_day.map
        (fun e => e.minutes)).sum = 1 ∧
    (compute_analytics
        [⟨0, ⟨2024, 1, 1, 1, 0, 0⟩, some ("A"), none⟩,
         ⟨1, ⟨2024, 1, 1, 2, 0, 0⟩, some ("A"), none⟩] [] 30).activity_by_hour.sum ≠
      ((compute_analytics
        [⟨0, ⟨2024, 1, 1, 1, 0, 0⟩, some ("A"), none⟩,
         ⟨1, ⟨2024, 1, 1, 2, 0, 0⟩, some ("A"), none⟩] [] 30).activity_by_day.map
        (fun e => e.minutes)).sum := by
  refine ⟨by with_unfolding_all rfl, by with_unfolding_all rfl, ?_⟩
  with_unfolding_all decide

/-! ### C4 -/

/-- Half-even rounding moves a value by at most one half. -/
theorem roundHalfEven_bounds (y : ℚ) :
    y - 1/2 ≤ (roundHalfEven y : ℚ) ∧ (roundHalfEven y : ℚ) ≤ y + 1/2 := by
  have h1 : ((⌊y⌋ : Int) : ℚ) ≤ y := Int.floor_le y
  have h2 : y < (⌊y⌋ : Int) + 1 := Int.lt_floor_add_one y
  simp only [roundHalfEven]
  split_ifs with hf1 hf2 hf3 <;> constructor <;> push_cast <;> linarith

/-- Half-even rounding of a non-negative value is non-negative. -/
theorem roundHalfEven_nonneg (y : ℚ) (h : 0 ≤ y) : 0 ≤ roundHalfEven y := by
  have h0 : 0 ≤ ⌊y⌋ := Int.floor_nonneg.mpr h
  simp only [roundHalfEven]
  split_ifs <;> omega

/-- `round(x, 1)` moves a value by at most `1/20`. -/
theorem roundTenth_bounds (x : ℚ) :
    x - 1/20 ≤ roundTenth x ∧ roundTenth x ≤ x + 1/20 := by
  obtain ⟨hl, hr⟩ := roundHalfEven_bounds (x * 10)
  unfold roundTenth
  constructor <;> linarith

/-- `round(x, 1)` of a non-negative value is non-negative. -/
theorem roundTenth_nonneg (x : ℚ) (h : 0 ≤ x) : 0 ≤ roundTenth x := by
  have := roundHalfEven_nonneg (x * 10) (by linarith)
  unfold roundTenth
  have hc : (0 : ℚ) ≤ (roundHalfEven (x * 10) : ℚ) := by exact_mod_cast this
  linarith

/-- Sublists of a non-negative list have smaller sums. -/
theorem sublist_sum_le (l₁ l₂ : List ℚ) (h : List.Sublist l₁ l₂)
    (hn : ∀ x ∈ l₂, 0 ≤ x) : l₁.sum ≤ l₂.sum := by
  induction h with
  | slnil => simp
  | cons a h ih =>
    have := hn a (List.mem_cons_self _ _)
    have := ih (fun x hx => hn x (List.mem_cons_of_mem _ hx))
    simp only [List.sum_cons]
    linarith
  | cons₂ a h ih =>
    have := ih (fun x hx => hn x (List.mem_cons_of_mem _ hx))
    simp only [List.sum_cons]
    linarith

/-- Rounding each entry of a list to tenths raises its total by at most
`1/20` per entry. -/
theorem sum_map_roundTenth_le (l : List ℚ) :
    (l.map roundTenth).sum ≤ l.sum + l.length * (1/20) := by
  induction l with
  | nil => simp
  | cons a t ih =>
    have := (roundTenth_bounds a).2
    simp only [List.map_cons, List.sum_cons, List.length_cons]
    push_cast
    linarith

/-- Summing the percentage shares `p.2 / c * 100` factors through the
value total. -/
theorem sum_map_share (s : List (String × ℚ)) (c : ℚ) :
    (s.map (fun p => p.2 / c * 100)).sum = (s.map Prod.snd).sum / c * 100 := by
  induction s with
  | nil => simp
  | cons p t ih =>
    simp only [List.map_cons, List.sum_cons, ih]
    ring

/-- The `top_apps` field unfolded to its defining expression. -/
theorem compute_analytics_top_apps (screenshots : List Screenshot)
    (sessions : List Session) (interval_seconds : ℚ) :
    (compute_analytics screenshots sessions interval_seconds).top_apps =
      (pysorted (fun a b => decide (-a.minutes ≤ -b.minutes))
        ((screenshots.foldl
            (fun m ss => bump m (orUnknown ss.app_name) (interval_seconds / 60)) []).map
          (fun p => TopApp.mk p.1 (truncQ p.2)
            (roundTenth (p.2 /
              (if ((screenshots.foldl
                    (fun m ss => bump m (orUnknown ss.app_name) (interval_seconds / 60))
                    []).map Prod.snd).sum = 0 then 1
               else ((screenshots.foldl
                    (fun m ss => bump m (orUnknown ss.app_name) (interval_seconds / 60))
                    []).map Prod.snd).sum) * 100))))).take 10 := rfl

/-- C4 (amended): every `top_apps` percentage is `round(m / D * 100, 1)`
where `m` is that application's raw minute estimate and `D` is the minute
total over **all** applications (`len(screenshots) * interval_minutes`,
with 0 replaced by 1); percentages are non-negative and, because each of
the at most 10 entries is rounded to one decimal, their sum can exceed
100 by at most 0.5; the total of all app minutes dominates the truncated
`top_apps` minutes. -/
theorem c4_top_app_percentages (screenshots : List Screenshot) (sessions : List Session)
    (interval_seconds : ℚ) (hiv : 0 ≤ interval_seconds) :
    (∀ e ∈ (compute_analytics screenshots sessions interval_seconds).top_apps,
      ∃ m : ℚ, 0 ≤ m ∧ m ≤ (screenshots.length : ℚ) * (interval_seconds / 60) ∧
        e.minutes = truncQ m ∧
        e.percentage = roundTenth (m /
          (if (screenshots.length : ℚ) * (interval_seconds / 60) = 0 then 1
           else (screenshots.length : ℚ) * (interval_seconds / 60)) * 100) ∧
        0 ≤ e.percentage) ∧
    ((compute_analytics screenshots sessions interval_seconds).top_apps.map
        (fun e => e.percentage)).sum ≤ 100 + 1/2 ∧
    ((compute_analytics screenshots sessions interval_seconds).top_apps.map
        (fun e => (e.minutes : ℚ))).sum ≤
      (screenshots.length : ℚ) * (interval_seconds / 60) := by
  have hivm : 0 ≤ interval_seconds / 60 := by positivity
  have hsum : ((screenshots.foldl
      (fun m ss => bump m (orUnknown ss.app_name) (interval_seconds / 60)) []).map
      Prod.snd).sum = (screenshots.length : ℚ) * (interval_seconds / 60) := by
    rw [foldl_bump_sum]
    simp
  have hnn : ∀ p ∈ screenshots.foldl
      (fun m ss => bump m (orUnknown ss.app_name) (interval_seconds / 60)) [], 0 ≤ p.2 :=
    foldl_bump_values_nonneg _ _ hivm screenshots [] (by simp)
  set T : ℚ := (screenshots.length : ℚ) * (interval_seconds / 60) with hT
  set am := screenshots.foldl
    (fun m ss => bump m (orUnknown ss.app_name) (interval_seconds / 60)) [] with ham
  set D : ℚ := if T = 0 then 1 else T with hD
  have hTnn : (0 : ℚ) ≤ T := by
    rw [← hsum]
    apply List.sum_nonneg
    intro x hx
    obtain ⟨p, hp, rfl⟩ := List.mem_map.mp hx
    exact hnn p hp
  have hDpos : 0 < D := by
    rw [hD]
    split_ifs with h0
    · norm_num
    · rcases lt_or_eq_of_le hTnn with hlt | heq
      · exact hlt
      · exact absurd heq.symm h0
  have hid : (compute_analytics screenshots sessions interval_seconds).top_apps =
      (pysorted (fun a b => decide (-a.minutes ≤ -b.minutes))
        (am.map (fun p => TopApp.mk p.1 (truncQ p.2)
          (roundTenth (p.2 / D * 100))))).take 10 := by
    rw [compute_analytics_top_apps, ← ham, hsum, ← hD]
  set E := am.map (fun p => TopApp.mk p.1 (truncQ p.2) (roundTenth (p.2 / D * 100)))
    with hE
  have hvalsnn : ∀ x ∈ am.map Prod.snd, 0 ≤ x := by
    intro x hx
    obtain ⟨p, hp, rfl⟩ := List.mem_map.mp hx
    exact hnn p hp
  -- the top-10 slice corresponds to a sublist `s` of the app dict
  have hsub : List.Subperm
      ((pysorted (fun a b : TopApp => decide (-a.minutes ≤ -b.minutes)) E).take 10) E :=
    List.Subperm.trans ((List.take_sublist _ _).subperm)
      ((pysorted_perm _ _).subperm)
  obtain ⟨l, hlperm, hlsub⟩ := hsub
  obtain ⟨s, hssub, hseq⟩ := List.sublist_map_iff.mp hlsub
  have hslen : s.length ≤ 10 := by
    have h1 : l.length = ((pysorted (fun a b => decide (-a.minutes ≤ -b.minutes))
        E).take 10).length := hlperm.length_eq
    have h2 : ((pysorted (fun a b => decide (-a.minutes ≤ -b.minutes))
        E).take 10).length ≤ 10 := List.length_take_le _ _
    have h3 : s.length = l.length := by rw [hseq, List.length_map]
    omega
  have hssum : (s.map Prod.snd).sum ≤ T := by
    rw [← hsum]
    exact sublist_sum_le _ _ (hssub.map Prod.snd) hvalsnn
  have hssnn : ∀ x ∈ s.map Prod.snd, 0 ≤ x :=
    fun x hx => hvalsnn x ((hssub.map Prod.snd).subset hx)
  refine ⟨?_, ?_, ?_⟩
  · -- membership characterisation
    intro e he
    rw [hid] at he
    have he2 : e ∈ E :=
      (pysorted_perm _ _).mem_iff.mp (List.take_subset _ _ he)
    obtain ⟨p, hp, rfl⟩ := List.mem_map.mp he2
    refine ⟨p.2, hnn p hp, ?_, rfl, rfl, ?_⟩
    · rw [← hsum]
      exact List.single_le_sum hvalsnn _ (List.mem_map_of_mem Prod.snd hp)
    · exact roundTenth_nonneg _
        (mul_nonneg (div_nonneg (hnn p hp) (le_of_lt hDpos)) (by norm_num))
  · -- percentage sum bound
    rw [hid]
    have hml : (((pysorted (fun a b : TopApp => decide (-a.minutes ≤ -b.minutes)) E).take
          10).map (fun e => e.percentage)).sum = (l.map (fun e => e.percentage)).sum :=
      (List.Perm.sum_eq (hlperm.map (fun e => e.percentage))).symm
    rw [hml, hseq, List.map_map]
    have hcomp : ((fun e : TopApp => e.percentage) ∘
        (fun p : String × ℚ => TopApp.mk p.1 (truncQ p.2) (roundTenth (p.2 / D * 100)))) =
        (fun p : String × ℚ => roundTenth (p.2 / D * 100)) := rfl
    rw [hcomp]
    have hmm : (s.map (fun p => roundTenth (p.2 / D * 100))).sum =
        ((s.map (fun p => p.2 / D * 100)).map roundTenth).sum := by
      rw [List.map_map]
      rfl
    rw [hmm]
    have hb := sum_map_roundTenth_le (s.map (fun p => p.2 / D * 100))
    rw [sum_map_share, List.length_map] at hb
    have hshare : (s.map Prod.snd).sum / D * 100 ≤ 100 := by
      have hd1 : (s.map Prod.snd).sum / D ≤ 1 := by
        rw [div_le_one hDpos]
        calc (s.map Prod.snd).sum ≤ T := hssum
          _ ≤ D := by
              rw [hD]
              split_ifs with h0
              · rw [h0]; norm_num
              · exact le_refl _
      linarith
    have hlen20 : (s.length : ℚ) * (1/20) ≤ 10 * (1/20) := by
      have : (s.length : ℚ) ≤ 10 := by exact_mod_cast hslen
      linarith
    linarith
  · -- minutes comparison
    rw [hid]
    have hml : (((pysorted (fun a b : TopApp => decide (-a.minutes ≤ -b.minutes)) E).take
          10).map (fun e => (e.minutes : ℚ))).sum = (l.map (fun e => (e.minutes : ℚ))).sum :=
      (List.Perm.sum_eq (hlperm.map (fun e => (e.minutes : ℚ)))).symm
    rw [hml, hseq, List.map_map]
    have hcomp : ((fun e : TopApp => (e.minutes : ℚ)) ∘
        (fun p : String × ℚ => TopApp.mk p.1 (truncQ p.2) (roundTenth (p.2 / D * 100)))) =
        (fun p : String × ℚ => ((truncQ p.2 : Int) : ℚ)) := rfl
    rw [hcomp]
    have hmm : (s.map (fun p => ((truncQ p.2 : Int) : ℚ))).sum =
        (((s.map Prod.snd).map truncQ).map (fun n : Int => (n : ℚ))).sum := by
      rw [List.map_map, List.map_map]
      rfl
    rw [hmm]
    calc (((s.map Prod.snd).map truncQ).map (fun n : Int => (n : ℚ))).sum
        ≤ (s.map Prod.snd).sum := (trunc_sum_bounds _ hssnn).1
      _ ≤ T := hssum

/-- Witness for C4 (amended): the interval hypothesis discharged on the
concrete 1/1/4 app distribution at a 30-second interval. -/
theorem c4_top_app_percentages_witness :
    ((compute_analytics
        [⟨0, ⟨2024, 1, 1, 9, 0, 0⟩, some ("A"), none⟩,
         ⟨1, ⟨2024, 1, 1, 9, 1, 0⟩, some ("B"), none⟩,
         ⟨2, ⟨2024, 1, 1, 9, 2, 0⟩, some ("C"), none⟩,
         ⟨3, ⟨2024, 1, 1, 9, 3, 0⟩, some ("C"), none⟩,
         ⟨4, ⟨2024, 1, 1, 9, 4, 0⟩, some ("C"), none⟩,
         ⟨5, ⟨2024, 1, 1, 9, 5, 0⟩, some ("C"), none⟩] [] 30).top_apps.map
        (fun e => e.percentage)).sum ≤ 100 + 1/2 :=
  (c4_top_app_percentages
    [⟨0, ⟨2024, 1, 1, 9, 0, 0⟩, some ("A"), none⟩,
     ⟨1, ⟨2024, 1, 1, 9, 1, 0⟩, some ("B"), none⟩,
     ⟨2, ⟨2024, 1, 1, 9, 2, 0⟩, some ("C"), none⟩,
     ⟨3, ⟨2024, 1, 1, 9, 3, 0⟩, some ("C"), none⟩,
     ⟨4, ⟨2024, 1, 1, 9, 4, 0⟩, some ("C"), none⟩,
     ⟨5, ⟨2024, 1, 1, 9, 5, 0⟩, some ("C"), none⟩] [] 30 (by norm_num)).2.1

/-- C4 counterexample: six screenshots over apps with counts 1/1/4 at a
30-second interval give top-app percentages 66.7, 16.7 and 16.7, whose
sum 100.1 exceeds 100 — refuting the claimed sum-at-most-100. -/
theorem c4_percentage_sum_counterexample :
    ((compute_analytics
        [⟨0, ⟨2024, 1, 1, 9, 0, 0⟩, some ("A"), none⟩,
         ⟨1, ⟨2024, 1, 1, 9, 1, 0⟩, some ("B"), none⟩,
         ⟨2, ⟨2024, 1, 1, 9, 2, 0⟩, some ("C"), none⟩,
         ⟨3, ⟨2024, 1, 1, 9, 3, 0⟩, some ("C"), none⟩,
         ⟨4, ⟨2024, 1, 1, 9, 4, 0⟩, some ("C"), none⟩,
         ⟨5, ⟨2024, 1, 1, 9, 5, 0⟩, some ("C"), none⟩] [] 30).top_apps.map
        (fun e => e.percentage)).sum = 1001/10 ∧
    (100 : ℚ) < ((compute_analytics
        [⟨0, ⟨2024, 1, 1, 9, 0, 0⟩, some ("A"), none⟩,
         ⟨1, ⟨2024, 1, 1, 9, 1, 0⟩, some ("B"), none⟩,
         ⟨2, ⟨2024, 1, 1, 9, 2, 0⟩, some ("C"), none⟩,
         ⟨3, ⟨2024, 1, 1, 9, 3, 0⟩, some ("C"), none⟩,
         ⟨4, ⟨2024, 1, 1, 9, 4, 0⟩, some ("C"), none⟩,
         ⟨5, ⟨2024, 1, 1, 9, 5, 0⟩, some ("C"), none⟩] [] 30).top_apps.map
        (fun e => e.percentage)).sum := by
  constructor
  · with_unfolding_all decide
  · with_unfolding_all decide

/-! ### C8 -/

/-- Number of screenshots falling in period bucket `k` — the claim's
"screenshot count" of a `"<Weekday> <morning|afternoon|evening>"` key. -/
def countPeriod (screenshots : List Screenshot) (k : String) : Nat :=
  screenshots.countP (fun ss => decide (periodKeyOf ss.timestamp = k))

/-- Index of the first screenshot whose period bucket is `k` (the list
length when no screenshot has bucket `k`) — the claim's
"first-encountered during iteration" order on keys. -/
def firstOcc (k : String) : List Screenshot → Nat
  | [] => 0
  | ss :: rest => if periodKeyOf ss.timestamp = k then 0 else firstOcc k rest + 1

theorem alistGet_bump_self_none [DecidableEq α] [Add β] (m : List (α × β)) (k : α)
    (v : β) (h : alistGet m k = none) : alistGet (bump m k v) k = some v := by
  induction m with
  | nil => simp [bump, alistGet]
  | cons p rest ih =>
    obtain ⟨k', v'⟩ := p
    by_cases hk : k' = k
    · simp [alistGet, hk] at h
    · simp only [bump, alistGet, hk, if_false] at *
      exact ih h

theorem alistGet_bump_self_some [DecidableEq α] [Add β] (m : List (α × β)) (k : α)
    (v w : β) (h : alistGet m k = some w) :
    alistGet (bump m k v) k = some (w + v) := by
  induction m with
  | nil => simp [alistGet] at h
  | cons p rest ih =>
    obtain ⟨k', v'⟩ := p
    by_cases hk : k' = k
    · simp only [alistGet, hk, if_pos] at h
      simp only [bump, hk, if_pos, alistGet]
      rw [Option.some_inj.mp h]
    · simp only [bump, alistGet, hk, if_false] at *
      exact ih h

theorem alistGet_bump_other [DecidableEq α] [Add β] (m : List (α × β)) (k k' : α)
    (v : β) (h : k' ≠ k) : alistGet (bump m k v) k' = alistGet m k' := by
  induction m with
  | nil =>
    simp only [bump, alistGet]
    rw [if_neg (fun he => h he.symm)]
  | cons p rest ih =>
    obtain ⟨k0, v0⟩ := p
    by_cases hk : k0 = k
    · subst hk
      simp only [bump, if_pos, alistGet]
      rw [if_neg (fun he => h he.symm), if_neg (fun he => h he.symm)]
    · simp only [bump, hk, if_false, alistGet]
      by_cases hk2 : k0 = k'
      · rw [if_pos hk2, if_pos hk2]
      · rw [if_neg hk2, if_neg hk2]
        exact ih

theorem alistGet_eq_none_iff [DecidableEq α] (m : List (α × β)) (k : α) :
    alistGet m k = none ↔ k ∉ m.map Prod.fst := by
  induction m with
  | nil => simp [alistGet]
  | cons p rest ih =>
    obtain ⟨k', v'⟩ := p
    by_cases hk : k' = k
    · simp [alistGet, hk]
    · simp [alistGet, hk, ih, Ne.symm hk]

theorem mem_of_alistGet [DecidableEq α] (m : List (α × β)) (k : α) (c : β)
    (h : alistGet m k = some c) : (k, c) ∈ m := by
  induction m with
  | nil => simp [alistGet] at h
  | cons p rest ih =>
    obtain ⟨k', v'⟩ := p
    by_cases hk : k' = k
    · simp only [alistGet, hk, if_pos] at h
      subst hk
      rw [Option.some_inj.mp h]
      exact List.mem_cons_self _ _
    · simp only [alistGet, hk, if_false] at h
      exact List.mem_cons_of_mem _ (ih h)

theorem alistGet_of_mem_nodup [DecidableEq α] (m : List (α × β)) (kv : α × β)
    (hnd : (m.map Prod.fst).Nodup) (h : kv ∈ m) : alistGet m kv.1 = some kv.2 := by
  induction m with
  | nil => simp at h
  | cons p rest ih =>
    obtain ⟨k', v'⟩ := p
    rcases List.mem_cons.mp h with he | hm
    · rw [he]
      simp [alistGet]
    · have hk : k' ≠ kv.1 := by
        intro he2
        have hmk : kv.1 ∈ rest.map Prod.fst := List.mem_map_of_mem Prod.fst hm
        rw [← he2] at hmk
        simp only [List.map_cons, List.nodup_cons] at hnd
        exact hnd.1 hmk
      simp only [alistGet, hk, if_false]
      exact ih (by simpa using hnd.of_cons) hm

theorem bump_keys_mem [DecidableEq α] [Add β] (m : List (α × β)) (k : α) (v : β)
    (h : k ∈ m.map Prod.fst) : (bump m k v).map Prod.fst = m.map Prod.fst := by
  induction m with
  | nil => simp at h
  | cons p rest ih =>
    obtain ⟨k', v'⟩ := p
    by_cases hk : k' = k
    · simp [bump, hk]
    · have h' : k ∈ rest.map Prod.fst := by
        simpa [hk, Ne.symm hk] using h
      simp [bump, hk, ih h']

theorem bump_keys_not_mem [DecidableEq α] [Add β] (m : List (α × β)) (k : α) (v : β)
    (h : k ∉ m.map Prod.fst) :
    (bump m k v).map Prod.fst = m.map Prod.fst ++ [k] := by
  induction m with
  | nil => simp [bump]
  | cons p rest ih =>
    obtain ⟨k', v'⟩ := p
    have hk : k' ≠ k := by
      intro he
      exact h (by simp [he])
    have h' : k ∉ rest.map Prod.fst := fun hm => h (by simp [hm])
    simp [bump, hk, ih h']

theorem countPeriod_snoc (l : List Screenshot) (ss : Screenshot) (k : String) :
    countPeriod (l ++ [ss]) k =
      countPeriod l k + (if periodKeyOf ss.timestamp = k then 1 else 0) := by
  simp [countPeriod, List.countP_append, List.countP_cons, List.countP_nil,
    decide_eq_true_eq]

theorem countPeriod_pos_iff (l : List Screenshot) (k : String) :
    0 < countPeriod l k ↔ ∃ ss ∈ l, periodKeyOf ss.timestamp = k := by
  rw [countPeriod, List.countP_pos_iff]
  simp

theorem firstOcc_append_of_ex (k : String) (l1 l2 : List Screenshot)
    (h : ∃ ss ∈ l1, periodKeyOf ss.timestamp = k) :
    firstOcc k (l1 ++ l2) = firstOcc k l1 := by
  induction l1 with
  | nil => simp at h
  | cons ss rest ih =>
    by_cases hk : periodKeyOf ss.timestamp = k
    · simp [firstOcc, hk]
    · have h' : ∃ x ∈ rest, periodKeyOf x.timestamp = k := by
        rcases h with ⟨x, hx, hxk⟩
        rcases List.mem_cons.mp hx with he | hm
        · exact absurd (he ▸ hxk) hk
        · exact ⟨x, hm, hxk⟩
      simp [firstOcc, hk, ih h']

theorem firstOcc_append_of_not (k : String) (l1 l2 : List Screenshot)
    (h : ∀ ss ∈ l1, periodKeyOf ss.timestamp ≠ k) :
    firstOcc k (l1 ++ l2) = l1.length + firstOcc k l2 := by
  induction l1 with
  | nil => simp
  | cons ss rest ih =>
    have hk := h ss (List.mem_cons_self _ _)
    have h' := fun x hx => h x (List.mem_cons_of_mem _ hx)
    simp [firstOcc, hk, ih h']
    omega

theorem firstOcc_lt_length_of_ex (k : String) (l : List Screenshot)
    (h : ∃ ss ∈ l, periodKeyOf ss.timestamp = k) : firstOcc k l < l.length := by
  induction l with
  | nil => simp at h
  | cons ss rest ih =>
    by_cases hk : periodKeyOf ss.timestamp = k
    · simp [firstOcc, hk]
    · have h' : ∃ x ∈ rest, periodKeyOf x.timestamp = k := by
        rcases h with ⟨x, hx, hxk⟩
        rcases List.mem_cons.mp hx with he | hm
        · exact absurd (he ▸ hxk) hk
        · exact ⟨x, hm, hxk⟩
      simp only [firstOcc, hk, if_false, List.length_cons]
      exact Nat.succ_lt_succ (ih h')

/-- The dict invariant of `_find_busiest_period`: values are exact bucket
counts, keys are distinct, and keys are ordered by first encounter. -/
theorem buildCounts_invariant (l : List Screenshot) :
    (∀ k, alistGet (buildCounts l) k =
        (if countPeriod l k = 0 then none else some (countPeriod l k))) ∧
    ((buildCounts l).map Prod.fst).Nodup ∧
    ((buildCounts l).map Prod.fst).Pairwise (fun k1 k2 => firstOcc k1 l < firstOcc k2 l) := by
  induction l using List.reverseRecOn with
  | nil => refine ⟨fun k => by simp [buildCounts, alistGet, countPeriod], by simp [buildCounts], by simp [buildCounts]⟩
  | append_singleton l ss ih =>
    obtain ⟨ih1, ih2, ih3⟩ := ih
    have hstep : buildCounts (l ++ [ss]) =
        bump (buildCounts l) (periodKeyOf ss.timestamp) 1 := by
      simp [buildCounts, List.foldl_append]
    have hkeys_count : ∀ k, k ∈ (buildCounts l).map Prod.fst ↔ countPeriod l k ≠ 0 := by
      intro k
      rw [← not_iff_not, not_not, ← alistGet_eq_none_iff, ih1]
      constructor
      · intro h
        by_contra hc
        simp [hc] at h
      · intro h
        simp [h]
    have hex : ∀ k, k ∈ (buildCounts l).map Prod.fst →
        ∃ x ∈ l, periodKeyOf x.timestamp = k := by
      intro k hk
      have := (hkeys_count k).mp hk
      exact (countPeriod_pos_iff l k).mp (Nat.pos_of_ne_zero this)
    refine ⟨?_, ?_, ?_⟩
    · -- counts stay exact
      intro k
      rw [hstep]
      by_cases hk : k = periodKeyOf ss.timestamp
      · rw [hk]
        have hcs : countPeriod (l ++ [ss]) (periodKeyOf ss.timestamp) =
            countPeriod l (periodKeyOf ss.timestamp) + 1 := by
          rw [countPeriod_snoc]
          simp
        rw [hcs]
        by_cases hz : countPeriod l (periodKeyOf ss.timestamp) = 0
        · have hget : alistGet (buildCounts l) (periodKeyOf ss.timestamp) = none := by
            rw [ih1]
            simp [hz]
          rw [alistGet_bump_self_none _ _ _ hget, hz]
          simp
        · have hget : alistGet (buildCounts l) (periodKeyOf ss.timestamp) =
              some (countPeriod l (periodKeyOf ss.timestamp)) := by
            rw [ih1]
            simp [hz]
          rw [alistGet_bump_self_some _ _ _ _ hget]
          have hnz : ¬ (countPeriod l (periodKeyOf ss.timestamp) + 1 = 0) := by omega
          simp [hnz]
      · rw [alistGet_bump_other _ _ _ _ hk]
        have hne : ¬ (periodKeyOf ss.timestamp = k) := fun he => hk he.symm
        have hcs : countPeriod (l ++ [ss]) k = countPeriod l k := by
          rw [countPeriod_snoc, if_neg hne]
          omega
        rw [hcs, ih1]
    · -- keys stay distinct
      rw [hstep]
      by_cases hk : periodKeyOf ss.timestamp ∈ (buildCounts l).map Prod.fst
      · rw [bump_keys_mem _ _ _ hk]
        exact ih2
      · rw [bump_keys_not_mem _ _ _ hk]
        simp only [List.nodup_append, List.nodup_singleton]
        exact ⟨ih2, trivial, by
          intro a ha hb
          rw [List.mem_singleton.mp hb] at ha
          exact hk ha⟩
    · -- keys stay ordered by first encounter
      rw [hstep]
      by_cases hk : periodKeyOf ss.timestamp ∈ (buildCounts l).map Prod.fst
      · rw [bump_keys_mem _ _ _ hk]
        refine List.Pairwise.imp_of_mem ?_ ih3
        intro a b ha hb hab
        rw [firstOcc_append_of_ex a l [ss] (hex a ha),
          firstOcc_append_of_ex b l [ss] (hex b hb)]
        exact hab
      · rw [bump_keys_not_mem _ _ _ hk]
        rw [List.pairwise_append]
        refine ⟨?_, List.pairwise_singleton _ _, ?_⟩
        · refine List.Pairwise.imp_of_mem ?_ ih3
          intro a b ha hb hab
          rw [firstOcc_append_of_ex a l [ss] (hex a ha),
            firstOcc_append_of_ex b l [ss] (hex b hb)]
          exact hab
        · intro a ha b hb
          rw [List.mem_singleton.mp hb]
          have hnotin : ∀ x ∈ l, periodKeyOf x.timestamp ≠ periodKeyOf ss.timestamp := by
            intro x hx he
            exact hk ((hkeys_count _).mpr (by
              have : 0 < countPeriod l (periodKeyOf ss.timestamp) :=
                (countPeriod_pos_iff _ _).mpr ⟨x, hx, he⟩
              omega))
          rw [firstOcc_append_of_ex a l [ss] (hex a ha),
            firstOcc_append_of_not _ l [ss] hnotin]
          have h1 : firstOcc a l < l.length := firstOcc_lt_length_of_ex a l (hex a ha)
          have h2 : firstOcc (periodKeyOf ss.timestamp) [ss] = 0 := by
            simp [firstOcc]
          omega

/-- `max(..., key=...)` as a fold: the result dominates the seed. -/
theorem foldmax_ge (key : α → Nat) (xs : List α) :
    ∀ b : α, key b ≤ key (xs.foldl (fun c y => if key y > key c then y else c) b) := by
  induction xs with
  | nil => intro b; exact le_refl _
  | cons y ys ih =>
    intro b
    simp only [List.foldl_cons]
    rcases le_or_lt (key y) (key b) with h | h
    · rw [if_neg (by omega)]
      exact ih b
    · rw [if_pos h]
      exact le_of_lt (lt_of_lt_of_le h (ih y))

/-- Python `max` returns the first maximal element: the input splits
around the result into a strictly-smaller prefix and a no-larger
suffix. -/
theorem foldmax_split (key : α → Nat) (xs : List α) :
    ∀ b : α, ∃ L1 L2 : List α,
      b :: xs = L1 ++ (xs.foldl (fun c y => if key y > key c then y else c) b) :: L2 ∧
      (∀ y ∈ L1, key y < key (xs.foldl (fun c y => if key y > key c then y else c) b)) ∧
      (∀ y ∈ L2, key y ≤ key (xs.foldl (fun c y => if key y > key c then y else c) b)) := by
  induction xs with
  | nil =>
    intro b
    exact ⟨[], [], rfl, by simp, by simp⟩
  | cons y ys ih =>
    intro b
    simp only [List.foldl_cons]
    rcases lt_or_le (key b) (key y) with hyb | hyb
    · -- the head is replaced by y
      rw [if_pos (by omega)]
      obtain ⟨L1, L2, heq, hlt, hle⟩ := ih y
      refine ⟨b :: L1, L2, ?_, ?_, hle⟩
      · rw [List.cons_append, ← heq]
      · intro z hz
        rcases List.mem_cons.mp hz with he | hm
        · rw [he]
          exact lt_of_lt_of_le hyb (foldmax_ge key ys y)
        · exact hlt z hm
    · -- the head survives this step
      rw [if_neg (by omega)]
      obtain ⟨L1, L2, heq, hlt, hle⟩ := ih b
      rcases L1 with _ | ⟨z, L1'⟩
      · -- b itself is the running maximum
        simp only [List.nil_append] at heq
        refine ⟨[], y :: L2, ?_, by simp, ?_⟩
        · rw [List.nil_append]
          have hb : b = ys.foldl (fun c y => if key y > key c then y else c) b :=
            (List.cons.injEq _ _ _ _).mp heq |>.1
          rw [List.cons.injEq] at heq
          rw [← heq.1, ← heq.2]
        · intro z hz
          rcases List.mem_cons.mp hz with he | hm
          · rw [he]
            have hb : b = ys.foldl (fun c y => if key y > key c then y else c) b := by
              rw [List.cons.injEq] at heq
              exact heq.1
            rw [← hb]
            exact hyb
          · exact hle z hm
      · -- b sits inside the strict prefix
        simp only [List.cons_append] at heq
        rw [List.cons.injEq] at heq
        obtain ⟨hbz, hys⟩ := heq
        refine ⟨b :: y :: L1', L2, ?_, ?_, hle⟩
        · simp only [List.cons_append]
          rw [← hys]
        · intro w hw
          have hbr : key b < key (ys.foldl (fun c y => if key y > key c then y else c) b) := by
            have := hlt z (List.mem_cons_self _ _)
            rw [← hbz] at this
            exact this
          rcases List.mem_cons.mp hw with he | hm
          · rw [he]; exact hbr
          · rcases List.mem_cons.mp hm with he2 | hm2
            · rw [he2]
              exact lt_of_le_of_lt hyb hbr
            · exact hlt w (List.mem_cons_of_mem _ hm2)

/-- C8: `_find_busiest_period` returns "No activity" on an empty list;
on a non-empty list it returns a realised `"<Weekday> <period>"` bucket
key (morning = hour<12, afternoon = 12≤hour<17, evening = hour≥17) whose
screenshot count is maximal, and among equal-count keys the one whose
bucket is encountered first wins. -/
theorem c8_busiest_period (screenshots : List Screenshot) :
    (∀ dt : DateTime, periodKeyOf dt = weekdayName dt ++ " " ++
      (if dt.hour < 12 then "morning" else
       if dt.hour < 17 then "afternoon" else "evening")) ∧
    (screenshots = [] → find_busiest_period screenshots = "No activity") ∧
    (screenshots ≠ [] →
      (∃ ss ∈ screenshots,
        periodKeyOf ss.timestamp = find_busiest_period screenshots) ∧
      (∀ ss ∈ screenshots,
        countPeriod screenshots (periodKeyOf ss.timestamp) ≤
          countPeriod screenshots (find_busiest_period screenshots)) ∧
      (∀ ss ∈ screenshots,
        countPeriod screenshots (periodKeyOf ss.timestamp) =
          countPeriod screenshots (find_busiest_period screenshots) →
        firstOcc (find_busiest_period screenshots) screenshots ≤
          firstOcc (periodKeyOf ss.timestamp) screenshots)) := by
  refine ⟨fun dt => rfl, fun h => by rw [h]; rfl, fun hne => ?_⟩
  obtain ⟨inv1, inv2, inv3⟩ := buildCounts_invariant screenshots
  -- the counts dict is non-empty
  obtain ⟨s0, rest, rfl⟩ : ∃ s0 rest, screenshots = s0 :: rest := by
    rcases screenshots with _ | ⟨s0, rest⟩
    · exact absurd rfl hne
    · exact ⟨s0, rest, rfl⟩
  set scr := s0 :: rest with hscr
  have hcount0 : countPeriod scr (periodKeyOf s0.timestamp) ≠ 0 := by
    have : 0 < countPeriod scr (periodKeyOf s0.timestamp) :=
      (countPeriod_pos_iff _ _).mpr ⟨s0, List.mem_cons_self _ _, rfl⟩
    omega
  have hCne : buildCounts scr ≠ [] := by
    intro hnil
    have := inv1 (periodKeyOf s0.timestamp)
    rw [hnil] at this
    simp only [alistGet] at this
    rw [if_neg hcount0] at this
    exact Option.noConfusion this
  obtain ⟨c0, cs, hC⟩ : ∃ c0 cs, buildCounts scr = c0 :: cs := by
    rcases hE : buildCounts scr with _ | ⟨c0, cs⟩
    · exact absurd hE hCne
    · exact ⟨c0, cs, rfl⟩
  set r := cs.foldl (fun c y => if y.2 > c.2 then y else c) c0 with hr
  have hfb : find_busiest_period scr = r.1 := by
    simp only [find_busiest_period, hscr, List.isEmpty_cons, hC, pymaxBy]
    rfl
  obtain ⟨L1, L2, hsplit, hlt, hle⟩ := foldmax_split Prod.snd cs c0
  rw [← hC] at hsplit
  -- every entry of the dict is bounded by the winner's value
  have hub : ∀ kv ∈ buildCounts scr, kv.2 ≤ r.2 := by
    intro kv hkv
    rw [hsplit] at hkv
    rcases List.mem_append.mp hkv with hm | hm
    · exact le_of_lt (hlt kv hm)
    · rcases List.mem_cons.mp hm with he | hm2
      · rw [he]
      · exact hle kv hm2
  have hrmem : r ∈ buildCounts scr := by
    rw [hsplit]
    exact List.mem_append.mpr (Or.inr (List.mem_cons_self _ _))
  -- identify dict values with counts
  have hval : ∀ kv ∈ buildCounts scr, kv.2 = countPeriod scr kv.1 ∧
      countPeriod scr kv.1 ≠ 0 := by
    intro kv hkv
    have hget : alistGet (buildCounts scr) kv.1 = some kv.2 :=
      alistGet_of_mem_nodup _ kv inv2 hkv
    rw [inv1 kv.1] at hget
    by_cases hz : countPeriod scr kv.1 = 0
    · rw [if_pos hz] at hget
      exact Option.noConfusion hget
    · rw [if_neg hz] at hget
      exact ⟨(Option.some_inj.mp hget).symm, hz⟩
  have hrval : countPeriod scr r.1 = r.2 ∧ countPeriod scr r.1 ≠ 0 := by
    obtain ⟨h1, h2⟩ := hval r hrmem
    exact ⟨h1.symm, h2⟩
  refine ⟨?_, ?_, ?_⟩
  · -- the winner is a realised bucket key
    rw [hfb]
    exact (countPeriod_pos_iff _ _).mp (Nat.pos_of_ne_zero hrval.2)
  · -- the winner's count is maximal
    intro ss hss
    rw [hfb, hrval.1]
    set k := periodKeyOf ss.timestamp with hk
    have hkc : countPeriod scr k ≠ 0 := by
      have : 0 < countPeriod scr k :=
        (countPeriod_pos_iff _ _).mpr ⟨ss, hss, rfl⟩
      omega
    have hget : alistGet (buildCounts scr) k = some (countPeriod scr k) := by
      rw [inv1 k, if_neg hkc]
    exact hub (k, countPeriod scr k) (mem_of_alistGet _ _ _ hget)
  · -- ties break toward the first-encountered key
    intro ss hss heq
    rw [hfb] at heq ⊢
    set k := periodKeyOf ss.timestamp with hk
    by_cases hkr : k = r.1
    · rw [hkr]
    · have hkc : countPeriod scr k ≠ 0 := by
        have : 0 < countPeriod scr k :=
          (countPeriod_pos_iff _ _).mpr ⟨ss, hss, rfl⟩
        omega
      have hget : alistGet (buildCounts scr) k = some (countPeriod scr k) := by
        rw [inv1 k, if_neg hkc]
      have hmem : (k, countPeriod scr k) ∈ buildCounts scr :=
        mem_of_alistGet _ _ _ hget
      have hkv2 : countPeriod scr k = r.2 := by
        rw [heq, hrval.1]
      -- the entry for k must live in the suffix L2
      have hkL2 : k ∈ L2.map Prod.fst := by
        rw [hsplit] at hmem
        rcases List.mem_append.mp hmem with hm | hm
        · exact absurd hkv2 (by
            have h2 : countPeriod scr k < r.2 := hlt _ hm
            omega)
        · rcases List.mem_cons.mp hm with he | hm2
          · exact absurd (congrArg Prod.fst he) hkr
          · exact List.mem_map_of_mem Prod.fst hm2
      -- the key order invariant settles the tie
      have hkeys : (buildCounts scr).map Prod.fst =
          L1.map Prod.fst ++ r.1 :: L2.map Prod.fst := by
        rw [hsplit]
        simp
      rw [hkeys] at inv3
      obtain ⟨hp1, hp2, hp12⟩ := List.pairwise_append.mp inv3
      have := (List.pairwise_cons.mp hp2).1 k hkL2
      exact le_of_lt this

/-- Witness for C8: every hypothesis discharged concretely — the empty
list, and a two-screenshot Monday morning/afternoon tie where the
first-encountered bucket wins. -/
theorem c8_busiest_period_witness :
    find_busiest_period [] = "No activity" ∧
    countPeriod [⟨0, ⟨2024, 3, 4, 9, 0, 0⟩, none, none⟩,
        ⟨1, ⟨2024, 3, 4, 13, 0, 0⟩, none, none⟩]
      (periodKeyOf (⟨2024, 3, 4, 13, 0, 0⟩ : DateTime)) ≤
      countPeriod [⟨0, ⟨2024, 3, 4, 9, 0, 0⟩, none, none⟩,
        ⟨1, ⟨2024, 3, 4, 13, 0, 0⟩, none, none⟩]
      (find_busiest_period [⟨0, ⟨2024, 3, 4, 9, 0, 0⟩, none, none⟩,
        ⟨1, ⟨2024, 3, 4, 13, 0, 0⟩, none, none⟩]) ∧
    firstOcc (find_busiest_period [⟨0, ⟨2024, 3, 4, 9, 0, 0⟩, none, none⟩,
        ⟨1, ⟨2024, 3, 4, 13, 0, 0⟩, none, none⟩])
      [⟨0, ⟨2024, 3, 4, 9, 0, 0⟩, none, none⟩,
        ⟨1, ⟨2024, 3, 4, 13, 0, 0⟩, none, none⟩] ≤
      firstOcc (periodKeyOf (⟨2024, 3, 4, 13, 0, 0⟩ : DateTime))
      [⟨0, ⟨2024, 3, 4, 9, 0, 0⟩, none, none⟩,
        ⟨1, ⟨2024, 3, 4, 13, 0, 0⟩, none, none⟩] := by
  have h0 := (c8_busiest_period ([] : List Screenshot)).2.1 rfl
  obtain ⟨hex, hmax, htie⟩ := (c8_busiest_period
    [⟨0, ⟨2024, 3, 4, 9, 0, 0⟩, none, none⟩,
     ⟨1, ⟨2024, 3, 4, 13, 0, 0⟩, none, none⟩]).2.2 (by simp)
  refine ⟨h0, hmax ⟨1, ⟨2024, 3, 4, 13, 0, 0⟩, none, none⟩ (by simp),
    htie ⟨1, ⟨2024, 3, 4, 13, 0, 0⟩, none, none⟩ (by simp) ?_⟩
  with_unfolding_all decide

end Tracker
